import Mathlib

/-!
Verification development for the monocular visual-odometry engine
(`src/algo/odometry.py`).  The pure data model (Pose / DeltaPose algebra)
is embedded directly; the `VisualOdometry` state machine is embedded as an
executable transition function over an explicit `VOState`, where the
numeric computer-vision routines (feature detection, optical-flow
tracking, RANSAC pose solving, pixel-displacement and view-angle tests,
triangulated coordinates, bundle-adjustment output) are treated as oracle
inputs supplied per `process` call: the bookkeeping that the claims are
about (maps, keyframes, counters, state flags, crash points) is modelled
faithfully from the source, while the oracle decides the outcomes of the
numeric tests.  A `process` result of `none` models a Python exception
(ZeroDivisionError, IndexError, KeyError, TypeError, AttributeError).
-/

namespace VisNav

/-! ### Pose algebra (`Pose.__add__`, `Pose.__sub__`, odometry.py lines 24-50)

Quaternions are modelled with rational components and the Hamilton
product, matching the numpy-quaternion library used by the source.
`DeltaPose` is a subclass of `Pose` with no extra fields, so it is
modelled as the same type. -/

structure Quat where
  w : ℚ
  x : ℚ
  y : ℚ
  z : ℚ
deriving DecidableEq, Repr

def Quat.mul (a b : Quat) : Quat :=
  { w := a.w * b.w - a.x * b.x - a.y * b.y - a.z * b.z
    x := a.w * b.x + a.x * b.w + a.y * b.z - a.z * b.y
    y := a.w * b.y - a.x * b.z + a.y * b.w + a.z * b.x
    z := a.w * b.z + a.x * b.y - a.y * b.x + a.z * b.w }

def Quat.conj (a : Quat) : Quat :=
  { w := a.w, x := -a.x, y := -a.y, z := -a.z }

structure Vec3 where
  x : ℚ
  y : ℚ
  z : ℚ
deriving DecidableEq, Repr

def Vec3.add (a b : Vec3) : Vec3 := ⟨a.x + b.x, a.y + b.y, a.z + b.z⟩

def Vec3.sub (a b : Vec3) : Vec3 := ⟨a.x - b.x, a.y - b.y, a.z - b.z⟩

structure Pose where
  loc : Vec3
  quat : Quat
  loc_s2 : Vec3
  so3_s2 : Vec3
deriving DecidableEq, Repr

/-- `Pose.__add__(self, dpose)` (odometry.py lines 31-38): the composed
pose is `Pose(self.loc + dpose.loc, dpose.quat * self.quat,
self.loc_s2 + dpose.loc_s2, self.so3_s2 + dpose.so3_s2)`. -/
def Pose.add (self dpose : Pose) : Pose :=
  { loc := self.loc.add dpose.loc
    quat := dpose.quat.mul self.quat
    loc_s2 := self.loc_s2.add dpose.loc_s2
    so3_s2 := self.so3_s2.add dpose.so3_s2 }

/-- `Pose.__sub__(self, pose)` (odometry.py lines 40-46): the difference
is `DeltaPose(self.loc - pose.loc, pose.quat.conj() * self.quat,
self.loc_s2 - pose.loc_s2, self.so3_s2 - pose.so3_s2)`. -/
def Pose.sub (self pose : Pose) : Pose :=
  { loc := self.loc.sub pose.loc
    quat := pose.quat.conj.mul self.quat
    loc_s2 := self.loc_s2.sub pose.loc_s2
    so3_s2 := self.so3_s2.sub pose.so3_s2 }

def v0 : Vec3 := ⟨0, 0, 0⟩

/-- Concrete counterexample poses for the round-trip property: the unit
quaternions i and j.  `compose(pose, pose2 - pose)` yields orientation
`i.conj * j * i = -j ≠ j`. -/
def cxPose : Pose := ⟨v0, ⟨0, 1, 0, 0⟩, v0, v0⟩

def cxPose2 : Pose := ⟨v0, ⟨0, 0, 1, 0⟩, v0, v0⟩

/-! ### Data model of the engine (odometry.py lines 59-107)

`Keypoint` keeps the triangulated position and the usage counters;
`Frame` keeps the keypoint-id set of its 2-D map (`kps_uv` keys; the
pixel coordinates themselves only feed the numeric tests, which are
oracle inputs), its initial keypoint count, and the prior/posterior
poses.  The class-level id counters `Frame._NEXT_ID` and
`Keypoint._NEXT_ID` live in `VOState` (they survive the `State()` reset
performed by `VisualOdometry.initialize`). -/

structure Keypoint where
  pt3d : Option Vec3
  total_count : ℕ
  inlier_count : ℕ
  inlier_time : Option ℚ
deriving DecidableEq, Repr

def Keypoint.new : Keypoint := ⟨none, 0, 0, none⟩

structure Frame where
  fid : ℕ
  time : ℚ
  kps : List ℕ
  ini_kp_count : ℕ
  prior : Pose
  post : Option Pose
deriving DecidableEq, Repr

structure VOState where
  initialized : Bool
  keyframes : List Frame
  map2d : List (ℕ × Keypoint)
  map3d : List (ℕ × Keypoint)
  last_frame : Option Frame
  last_success_time : Option ℚ
  nextFrameId : ℕ
  nextKpId : ℕ
deriving DecidableEq, Repr

inductive PoseEst where
  | ransac2d
  | ransac3d
  | mixed
deriving DecidableEq, Repr

/-- Configuration parameters of `VisualOdometry` that the claims touch
(the `DEF_`-prefixed class attributes, overridable per instance through
constructor kwargs). -/
structure Config where
  pose_estimation : PoseEst
  min_inliers : ℕ
  reset_timeout : ℚ
  new_kf_min_inlier_ratio : ℚ
  new_kf_triangulation_trigger_ratio : ℚ
  new_kf_trans_kp3d_ratio : ℚ
  use_ba : Bool
  max_keyframes : ℕ
  max_ba_keyframes : ℕ
  ba_interval : ℕ
  removal_usage_limit : ℕ
  removal_ratio : ℚ
  removal_age : ℕ
deriving DecidableEq, Repr

/-- The class attribute `VisualOdometry.DEF_MIN_INLIERS`.  Note that
`initialize` (line 285) reads `self.DEF_MIN_INLIERS`, which always
resolves to this class constant, not to the configured `min_inliers`. -/
def DEF_MIN_INLIERS : ℕ := 20

/-- Oracle outcome of a successful pose estimation: the ids whose
total-use counters the PnP path bumps, the PnP inlier ids, and the
resulting posterior pose.  `used`/`inliers` are empty when only the
2-D-2-D path succeeded. -/
structure EstRes where
  used : List ℕ
  inliers : List ℕ
  pose : Pose

/-- Per-call input: the frame data plus the oracle outcomes of the
numeric computer-vision routines (which features the detector finds, which
tracked points survive the optical-flow + sanity filter, whether pose
estimation succeeds, the angle/displacement test outcomes, triangulated
coordinates, bundle-adjustment refinements). -/
structure Inp where
  time : ℚ
  prior : Pose
  nDetect : ℕ
  surv : ℕ → Bool
  est : Option EstRes
  rotExceeded : Bool
  disp : ℕ → Bool
  vpt : ℕ → Bool
  tri : ℕ → Vec3
  baPose : ℕ → Pose
  baPt : ℕ → Vec3

/-! ### Map and list helpers -/

def mapIds (m : List (ℕ × Keypoint)) : List ℕ := m.map Prod.fst

/-- `dict.pop(kid, False)`: removal of a key from an association list. -/
def eraseKey (kid : ℕ) (m : List (ℕ × Keypoint)) : List (ℕ × Keypoint) :=
  m.filter (fun p => p.1 ≠ kid)

/-- Python slice `l[-n:]`.  For `n = 0` this is `l[0:] = l` (the whole
list), for `n > 0` the last `n` elements (or all of `l` when `n ≥ len`). -/
def pyLastN {α : Type} (n : ℕ) (l : List α) : List α :=
  if n = 0 then l else l.drop (l.length - n)

/-- Python slice `l[:-n]`.  For `n = 0` this is `l[:0] = []`. -/
def pyDropLastN {α : Type} (n : ℕ) (l : List α) : List α :=
  if n = 0 then [] else l.take (l.length - n)

/-! ### Engine operations -/

/-- Removal of one keypoint id from a frame's 2-D map (`kps_uv.pop(id, False)`;
`kps_uv` is a dict keyed by the globally unique id, so popping deletes the key). -/
def Frame.delKp (kid : ℕ) (f : Frame) : Frame :=
  { f with kps := f.kps.filter (fun k => k ≠ kid) }

/-- `VisualOdometry.del_keypoint` (lines 725-730): removes the id from
`map2d`, `map3d`, every keyframe's 2-D map and (because the
`last_frame.kps_uv.pop` sits inside the keyframe loop) from the last
frame exactly when the keyframe list is non-empty.  (The source would
raise AttributeError if `last_frame` were `None` with keyframes present;
that combination never occurs at the call sites, and the model treats it
as a no-op on the absent frame.) -/
def del_keypoint (kid : ℕ) (s : VOState) : VOState :=
  { s with
    map2d := eraseKey kid s.map2d
    map3d := eraseKey kid s.map3d
    keyframes := s.keyframes.map (Frame.delKp kid)
    last_frame := if s.keyframes.isEmpty then s.last_frame
                  else s.last_frame.map (Frame.delKp kid) }

/-- `VisualOdometry.detect_features` (lines 313-320): the detector (an
oracle here) returns `n` new 2-D points; each receives a fresh globally
unique id (`Keypoint._NEXT_ID`), is added to the frame's 2-D map and to
`map2d`, and the frame's `ini_kp_count` is set to its new map size. -/
def detect_features (s : VOState) (n : ℕ) (nf : Frame) : VOState × Frame :=
  let newIds := (List.range n).map (fun i => s.nextKpId + i)
  ({ s with
      map2d := s.map2d ++ newIds.map (fun kid => (kid, Keypoint.new))
      nextKpId := s.nextKpId + n },
   { nf with kps := nf.kps ++ newIds, ini_kp_count := nf.kps.length + n })

/-- `VisualOdometry.track_keypoints` (lines 380-412): if the last frame
holds keypoints, the tracker plus sanity filter (oracle `surv`) keeps a
subset; every non-surviving id is deleted everywhere via `del_keypoint`;
the new frame's 2-D map is exactly the survivors and its
`ini_kp_count` is their number.  Raises (returns `none`) when
`last_frame` is absent. -/
def track_keypoints (s : VOState) (nf : Frame) (surv : ℕ → Bool) :
    Option (VOState × Frame) :=
  match s.last_frame with
  | none => none
  | some lf =>
    if 0 < lf.kps.length then
      let kept := lf.kps.filter (fun kid => surv kid)
      let lost := lf.kps.filter (fun kid => !surv kid)
      some (lost.foldl (fun st kid => del_keypoint kid st) s,
            { nf with kps := kept, ini_kp_count := kept.length })
    else some (s, nf)

def pose3dEnabled : Config → Bool := fun cfg =>
  match cfg.pose_estimation with
  | PoseEst.ransac2d => false
  | _ => true

def bumpTotal (kid : ℕ) (m : List (ℕ × Keypoint)) : List (ℕ × Keypoint) :=
  m.map (fun p => if p.1 = kid then (p.1, { p.2 with total_count := p.2.total_count + 1 }) else p)

def bumpInlier (t : ℚ) (kid : ℕ) (m : List (ℕ × Keypoint)) : List (ℕ × Keypoint) :=
  m.map (fun p =>
    if p.1 = kid then (p.1, { p.2 with inlier_count := p.2.inlier_count + 1, inlier_time := some t })
    else p)

/-- `VisualOdometry.estimate_pose` (lines 414-530).  The RANSAC solvers
are oracles; the model keeps the structure that the claims rely on: the
reference keyframe is `keyframes[-1]` (IndexError when empty; both paths
read its posterior pose, absent posterior is modelled as a failure of the
call), a successful estimate requires strictly more than `min_inliers`
correspondences on at least one path (3-D-2-D needs tracked ids present
in `map3d`, 2-D-2-D needs tracked ids shared with the reference
keyframe), success bumps the usage counters of the PnP-path ids inside
`map3d`, stores the posterior pose and records the frame time as
`last_success_time`; failure leaves the posterior unset and the state's
counters untouched. -/
def estimate_pose (cfg : Config) (s : VOState) (nf : Frame) (inp : Inp) :
    Option (VOState × Frame) :=
  match s.keyframes.getLast? with
  | none => none
  | some rf =>
    match rf.post with
    | none => none
    | some _ =>
      let tracked3d := nf.kps.filter (fun kid => (List.lookup kid s.map3d).isSome)
      let tracked2d := nf.kps.filter (fun kid => kid ∈ rf.kps)
      match inp.est with
      | none => some (s, nf)
      | some er =>
        if (pose3dEnabled cfg = true ∧ cfg.min_inliers < tracked3d.length)
            ∨ cfg.min_inliers < tracked2d.length then
          some ({ s with
                  map3d := er.inliers.foldl (fun m kid => bumpInlier nf.time kid m)
                             (er.used.foldl (fun m kid => bumpTotal kid m) s.map3d)
                  last_success_time := some nf.time },
                { nf with post := some er.pose })
        else some (s, nf)

/-- `VisualOdometry.triangulation_kps` (lines 575-598): among the new
frame's tracked keypoints, only ids currently present in `map2d` are
considered; for each of those the keyframes observing the id are
collected (`np.argmax` over their displacement list raises on an empty
list, modelled as `none`) and the id is selected when its maximal
normalized displacement exceeds the threshold (oracle `disp`).  The
selected partner keyframe only feeds the numeric triangulation and is
abstracted away. -/
def triangulation_kps (s : VOState) (nf : Frame) (disp : ℕ → Bool) :
    Option (List ℕ) :=
  nf.kps.foldlM (fun acc kid =>
    if (List.lookup kid s.map2d).isSome then
      if (s.keyframes.filter (fun f => kid ∈ f.kps)).isEmpty then none
      else some (if disp kid then acc ++ [kid] else acc)
    else some acc) []

/-- `VisualOdometry.viewpoint_changed_kps` (lines 600-621): the tracked
ids present in `map3d` whose viewing-direction change exceeds the angular
threshold (oracle `vpt`). -/
def viewpoint_changed_kps (s : VOState) (nf : Frame) (vpt : ℕ → Bool) : List ℕ :=
  (nf.kps.filter (fun kid => (List.lookup kid s.map3d).isSome)).filter vpt

/-- `VisualOdometry.is_new_keyframe` (lines 532-565), returning the
decision together with the per-call cache entry for
`triangulation_kps` when condition (b) computed it.  `none` models an
exception: `keyframes[-1]` on an empty list (line 540, evaluated before
the posterior check), the survival ratio `len(nf.kps_uv)/rf.ini_kp_count`
with a zero denominator (line 547), or the triangulation trigger ratio
`len(triangulation_kps)/len(map2d)` with a zero denominator (line 556). -/
def is_new_keyframe (cfg : Config) (s : VOState) (nf : Frame) (inp : Inp) :
    Option (Bool × Option (List ℕ)) :=
  match s.keyframes.getLast? with
  | none => none
  | some rf =>
    match nf.post with
    | none => some (false, none)
    | some _ =>
      if rf.ini_kp_count = 0 then none
      else if (nf.kps.length : ℚ) / (rf.ini_kp_count : ℚ) < cfg.new_kf_min_inlier_ratio then
        some (true, none)
      else if inp.rotExceeded then some (true, none)
      else if pose3dEnabled cfg then
        match triangulation_kps s nf inp.disp with
        | none => none
        | some tk =>
          if s.map2d.length = 0 then none
          else if cfg.new_kf_triangulation_trigger_ratio
                    < (tk.length : ℚ) / (s.map2d.length : ℚ) then some (true, some tk)
          else if cfg.use_ba = true ∧ 0 < s.map3d.length
                    ∧ cfg.new_kf_trans_kp3d_ratio
                        < ((viewpoint_changed_kps s nf inp.vpt).length : ℚ) / (s.map3d.length : ℚ) then
            some (true, some tk)
          else some (false, some tk)
      else
        if cfg.use_ba = true ∧ 0 < s.map3d.length
            ∧ cfg.new_kf_trans_kp3d_ratio
                < ((viewpoint_changed_kps s nf inp.vpt).length : ℚ) / (s.map3d.length : ℚ) then
          some (true, none)
        else some (false, none)

/-- `VisualOdometry.triangulate` (lines 623-645): each candidate id is
popped from `map2d` (KeyError when absent, modelled as `none`), its
keypoint receives the triangulated 3-D position (oracle `tri`; the
projection-matrix arithmetic is numeric) and is inserted into `map3d`. -/
def triangulate (s : VOState) (cands : List ℕ) (tri : ℕ → Vec3) : Option VOState :=
  cands.foldlM (fun st kid =>
    match List.lookup kid st.map2d with
    | none => none
    | some kp =>
      some { st with
             map2d := eraseKey kid st.map2d
             map3d := st.map3d ++ [(kid, { kp with pt3d := some (tri kid) })] }) s

/-- `VisualOdometry.add_new_keyframe` (lines 567-573): append the frame
to the keyframe list, run feature detection on it, and (when the 3-D
pose-estimation path is enabled) triangulate.  `triangulate` re-reads
`triangulation_kps` through the per-call cache: when
`is_new_keyframe` already computed the candidate set it is reused
(computed before detection), otherwise it is computed now, after
detection and with the new keyframe appended.  Returns the updated
state, the detected frame, and the candidate list that was used. -/
def add_new_keyframe (cfg : Config) (s : VOState) (nf : Frame) (inp : Inp)
    (cache : Option (List ℕ)) : Option (VOState × Frame × List ℕ) :=
  let p := detect_features s inp.nDetect nf
  let s2 := { p.1 with keyframes := p.1.keyframes ++ [p.2] }
  if pose3dEnabled cfg then
    match (match cache with
           | some tk => some tk
           | none => triangulation_kps s2 p.2 inp.disp) with
    | none => none
    | some tk =>
      match triangulate s2 tk inp.tri with
      | none => none
      | some s3 => some (s3, p.2, tk)
  else some (s2, p.2, [])

/-- `VisualOdometry.is_maintenance_time` (lines 689-690): the id of the
last keyframe modulo `ba_interval` (IndexError when the keyframe
list is empty, ZeroDivisionError when the interval is 0). -/
def is_maintenance_time (cfg : Config) (s : VOState) : Option Bool :=
  match s.keyframes.getLast? with
  | none => none
  | some f =>
    if cfg.ba_interval = 0 then none
    else some (decide (f.fid % cfg.ba_interval = 0))

/-- `VisualOdometry.prune_keyframes` (lines 705-711): keep
`keyframes[-max_keyframes:]` (with the Python `-0` slice quirk). -/
def prune_keyframes (cfg : Config) (s : VOState) : VOState :=
  { s with keyframes := pyLastN cfg.max_keyframes s.keyframes }

/-- The removal condition of `VisualOdometry.prune_map3d` (lines
717-718): the keypoint's total-use count has reached
`removal_usage_limit` AND (its inlier ratio is at most `removal_ratio`,
OR more than `removal_age` keyframes are retained and its last inlier
use is not later than the time of `keyframes[-removal_age]`).  `none`
models the ZeroDivisionError for `inlier_count/total_count` with
`total_count = 0` (possible only when the limit is 0) and the TypeError
of comparing a never-set `inlier_time` with a timestamp. -/
def removalPred (cfg : Config) (kfs : List Frame) (kp : Keypoint) : Option Bool :=
  if cfg.removal_usage_limit ≤ kp.total_count then
    if kp.total_count = 0 then none
    else if (kp.inlier_count : ℚ) / (kp.total_count : ℚ) ≤ cfg.removal_ratio then some true
    else if cfg.removal_age < kfs.length then
      match kp.inlier_time with
      | none => none
      | some t =>
        match kfs.get? (if cfg.removal_age = 0 then 0 else kfs.length - cfg.removal_age) with
        | none => none
        | some f => some (decide (t ≤ f.time))
    else some false
  else some false

/-- The removal condition of lines 717-718 as a proposition: the
keypoint's total-use count has reached `removal_usage_limit` AND (its
inlier ratio is at most `removal_ratio`, OR more than `removal_age`
keyframes are retained and its last inlier use is not later than the
time of the keyframe `removal_age` from the end).  `removalPred` is the
executable fallible evaluation of this condition; the two are related by
the bridge lemma proved below. -/
def removalCond (cfg : Config) (kfs : List Frame) (kp : Keypoint) : Prop :=
  cfg.removal_usage_limit ≤ kp.total_count ∧
  ((kp.inlier_count : ℚ) / (kp.total_count : ℚ) ≤ cfg.removal_ratio ∨
   (cfg.removal_age < kfs.length ∧
    ∃ t f, kp.inlier_time = some t ∧
      kfs.get? (if cfg.removal_age = 0 then 0 else kfs.length - cfg.removal_age) = some f ∧
      t ≤ f.time))

/-- `VisualOdometry.prune_map3d` (lines 713-723): collect the ids of all
`map3d` points satisfying the removal condition, then delete each of
them everywhere via `del_keypoint`. -/
def prune_map3d (cfg : Config) (s : VOState) : Option VOState :=
  match s.map3d.foldlM (fun acc p =>
      (removalPred cfg s.keyframes p.2).map (fun b => if b then acc ++ [p.1] else acc)) [] with
  | none => none
  | some rem => some (rem.foldl (fun st kid => del_keypoint kid st) s)

/-- `VisualOdometry.bundle_adjustment` (lines 647-687): collects the
`map3d` points with at least one inlier use (early return when none),
the last `max_keyframes` keyframes (the `max_keyframes or len(...)`
Python idiom makes 0 mean all) and the observation list; an empty
observation list makes the triple unpacking raise (modelled `none`).
The solver is an oracle: refined poses are written back into the
selected keyframes and refined positions into the selected `map3d`
points; memberships are unchanged. -/
def bundle_adjustment (cfg : Config) (s : VOState) (inp : Inp) : Option VOState :=
  let maxK := if cfg.max_ba_keyframes = 0 then s.keyframes.length else cfg.max_ba_keyframes
  let pts := s.map3d.filter (fun p => 0 < p.2.inlier_count)
  if pts.isEmpty then some s
  else
    let kfsM := pyLastN maxK s.keyframes
    let obs := kfsM.foldl (fun acc f =>
      acc ++ f.kps.filter (fun kid => (List.lookup kid pts).isSome)) ([] : List ℕ)
    if obs.isEmpty then none
    else
      some { s with
             keyframes := pyDropLastN maxK s.keyframes
               ++ kfsM.map (fun f => { f with post := some (inp.baPose f.fid) })
             map3d := s.map3d.map (fun p =>
               if (List.lookup p.1 pts).isSome then (p.1, { p.2 with pt3d := some (inp.baPt p.1) })
               else p) }

/-- `VisualOdometry.maintain_map` (lines 692-703): prune keyframes when
over the cap, prune `map3d` when the 3-D pose path is enabled, then
trigger bundle adjustment when enabled, `map3d` is non-empty and enough
keyframes are retained. -/
def maintain_map (cfg : Config) (s : VOState) (inp : Inp) : Option VOState :=
  let s1 := if cfg.max_keyframes < s.keyframes.length then prune_keyframes cfg s else s
  match (if pose3dEnabled cfg then prune_map3d cfg s1 else some s1) with
  | none => none
  | some s2 =>
    if cfg.use_ba = true ∧ 0 < s2.map3d.length
        ∧ cfg.max_ba_keyframes ≤ s2.keyframes.length then
      bundle_adjustment cfg s2 inp
    else some s2

/-- `VisualOdometry.initialize_frame` (lines 265-275): build the new
frame with the next global frame id, the given time and prior pose and
no posterior; image rescaling is numeric and not modelled. -/
def initFrame (s : VOState) (inp : Inp) : VOState × Frame :=
  ({ s with nextFrameId := s.nextFrameId + 1 },
   { fid := s.nextFrameId, time := inp.time, kps := [], ini_kp_count := 0,
     prior := inp.prior, post := none })

/-- `VisualOdometry.initialize` (lines 277-288): reset the state (the
class-level id counters survive), take the prior as posterior, add the
frame as the first keyframe; if the resulting `map2d` size exceeds
`self.DEF_MIN_INLIERS * 2` — the class constant, not the configured
`min_inliers` — record the frame as last frame, its time as the last
success time and set `initialized`.  Returns the state and the
triangulation-candidate list used by `add_new_keyframe`. -/
def initTracking (cfg : Config) (s : VOState) (nf : Frame) (inp : Inp) :
    Option (VOState × List ℕ) :=
  let s0 : VOState :=
    { initialized := false, keyframes := [], map2d := [], map3d := [],
      last_frame := none, last_success_time := none,
      nextFrameId := s.nextFrameId, nextKpId := s.nextKpId }
  match add_new_keyframe cfg s0 { nf with post := some nf.prior } inp none with
  | none => none
  | some (s1, nf2, tk) =>
    if DEF_MIN_INLIERS * 2 < s1.map2d.length then
      some ({ s1 with last_frame := some nf2, last_success_time := some nf2.time,
                      initialized := true }, tk)
    else some (s1, tk)

/-- Result of one `process` call: the new state, the returned posterior
pose (a detached copy in the source), whether the TRACKING-path keyframe
decision accepted the frame, whether map maintenance ran, every
triangulation-candidate selection computed during the call, and the ids
triangulated during the call. -/
structure POut where
  st : VOState
  ret : Option Pose
  acceptedKf : Bool
  ranMaint : Bool
  selected : List ℕ
  triangulated : List ℕ
deriving DecidableEq, Repr

/-- The first stages of a TRACKING-path `process` call: build the frame,
track keypoints against the last frame, estimate the pose. -/
def trackingStage (cfg : Config) (s : VOState) (inp : Inp) :
    Option (VOState × Frame) :=
  let p := initFrame s inp
  match track_keypoints p.1 p.2 inp.surv with
  | none => none
  | some (s1, nf1) => estimate_pose cfg s1 nf1 inp

/-- `VisualOdometry.process` (lines 225-263).  UNINITIALIZED: run
`initialize` and return no result.  TRACKING: track, estimate; if no
posterior pose resulted, reinitialize when more than one keyframe is
retained and the time since the last success exceeds the reset timeout,
or when fewer than `2 * min_inliers` keypoints remain tracked
(`last_success_time` is `None`-unsafe there: subtracting from it raises,
modelled `none`); if the keyframe decision accepts the frame add it as a
keyframe and, if it is maintenance time, maintain the map; store the
frame as last frame and return the posterior pose.  The stored frame and
returned pose reflect any maintenance mutations, because
`new_frame` is the same object as the appended `keyframes[-1]`. -/
def process (cfg : Config) (s : VOState) (inp : Inp) : Option POut :=
  if s.initialized = false then
    let p := initFrame s inp
    match initTracking cfg p.1 p.2 inp with
    | none => none
    | some (s', tk) => some ⟨s', none, false, false, tk, tk⟩
  else
    match trackingStage cfg s inp with
    | none => none
    | some (s2, nf2) =>
      match (match nf2.post with
             | some _ => some s2
             | none =>
               match s2.last_success_time with
               | none => none
               | some t0 =>
                 let s3a := if 1 < s2.keyframes.length ∧ cfg.reset_timeout < inp.time - t0
                            then { s2 with initialized := false } else s2
                 some (if nf2.kps.length < 2 * cfg.min_inliers
                       then { s3a with initialized := false } else s3a)) with
      | none => none
      | some s3 =>
        match is_new_keyframe cfg s3 nf2 inp with
        | none => none
        | some (knf, cache) =>
          if knf then
            match add_new_keyframe cfg s3 nf2 inp cache with
            | none => none
            | some (s4, nf3, tk) =>
              match is_maintenance_time cfg s4 with
              | none => none
              | some mt =>
                if mt then
                  match maintain_map cfg s4 inp with
                  | none => none
                  | some s5 =>
                    match s5.keyframes.getLast? with
                    | none => none
                    | some nf4 =>
                      some ⟨{ s5 with last_frame := some nf4 }, nf4.post, true, true,
                            cache.getD [] ++ tk, tk⟩
                else
                  some ⟨{ s4 with last_frame := some nf3 }, nf3.post, true, false,
                        cache.getD [] ++ tk, tk⟩
          else some ⟨{ s3 with last_frame := some nf2 }, nf2.post, false, false,
                     cache.getD [], []⟩

/-- The engine's initial state: fresh `State()`, id counters at 1. -/
def initState : VOState :=
  { initialized := false, keyframes := [], map2d := [], map3d := [],
    last_frame := none, last_success_time := none, nextFrameId := 1, nextKpId := 1 }

/-- States reachable by a sequence of `process` calls (crashing calls
produce no successor). -/
inductive Reach (cfg : Config) : VOState → Prop where
  | init : Reach cfg initState
  | step {s : VOState} {inp : Inp} {out : POut} :
      Reach cfg s → process cfg s inp = some out → Reach cfg out.st

/-- Multi-step evolution by `process` calls from a given state. -/
inductive Steps (cfg : Config) : VOState → VOState → Prop where
  | refl (s : VOState) : Steps cfg s s
  | tail {s t : VOState} {inp : Inp} {out : POut} :
      Steps cfg s t → process cfg t inp = some out → Steps cfg s out.st

/-! ### Concrete runs used by witnesses and counterexamples -/

def pose0 : Pose := ⟨v0, ⟨1, 0, 0, 0⟩, v0, v0⟩

/-- Neutral per-call input; runs override the relevant fields. -/
def inp0 : Inp :=
  { time := 0, prior := pose0, nDetect := 0, surv := fun _ => true, est := none,
    rotExceeded := false, disp := fun _ => false, vpt := fun _ => false,
    tri := fun _ => v0, baPose := fun _ => pose0, baPt := fun _ => v0 }

/-- Run A configuration: mixed 2-D/3-D pose estimation, a configured
`min_inliers` of 2, bundle adjustment off, other parameters at their
source defaults. -/
def cfgA : Config :=
  { pose_estimation := PoseEst.mixed, min_inliers := 2, reset_timeout := 1800,
    new_kf_min_inlier_ratio := 7/10, new_kf_triangulation_trigger_ratio := 3/10,
    new_kf_trans_kp3d_ratio := 1/10, use_ba := false, max_keyframes := 7,
    max_ba_keyframes := 7, ba_interval := 3, removal_usage_limit := 5,
    removal_ratio := 1/5, removal_age := 4 }

def inpA1 : Inp := { inp0 with nDetect := 41 }

def inpA2 : Inp :=
  { inp0 with
    time := 1
    surv := fun kid => decide (kid ≤ 5)
    est := some ⟨[], [], pose0⟩
    disp := fun _ => true }

def inpA3 : Inp :=
  { inp0 with time := 2, est := some ⟨[1, 2, 3, 4, 5], [1, 2, 3, 4, 5], pose0⟩ }

def outA0 : POut := ⟨initState, none, false, false, [], []⟩

def outA1 : POut := (process cfgA initState inpA1).getD outA0

def outA2 : POut := (process cfgA outA1.st inpA2).getD outA0

/-- Tracking input whose pose estimation fails (the estimator oracle
reports no solution) long after the last success. -/
def inpT : Inp := { inp0 with time := 2000, est := none }

/-- Run B configuration: 2-D-only pose estimation (no triangulation, no
3-D pruning), bundle adjustment off, configured `min_inliers` of 2. -/
def cfgB : Config := { cfgA with pose_estimation := PoseEst.ransac2d }

def inpB2 : Inp :=
  { inp0 with
    time := 1
    surv := fun kid => decide (kid ≤ 5)
    est := some ⟨[], [], pose0⟩
    nDetect := 10 }

def inpB3 : Inp :=
  { inp0 with
    time := 2
    surv := fun kid => decide (kid ≤ 48)
    est := some ⟨[], [], pose0⟩ }

def inpB4 : Inp :=
  { inp0 with
    time := 3
    surv := fun kid => decide (kid ≤ 4)
    est := some ⟨[], [], pose0⟩ }

def outB1 : POut := (process cfgB initState inpA1).getD outA0

def outB2 : POut := (process cfgB outB1.st inpB2).getD outA0

def outB3 : POut := (process cfgB outB2.st inpB3).getD outA0

def outB4 : POut := (process cfgB outB3.st inpB4).getD outA0

/-- Run C configuration: run B with the keyframe cap configured to 0. -/
def cfgC : Config := { cfgB with max_keyframes := 0 }

def inpC2 : Inp :=
  { inp0 with
    time := 1
    surv := fun kid => decide (kid ≤ 5)
    est := some ⟨[], [], pose0⟩ }

def inpC3 : Inp :=
  { inp0 with
    time := 2
    surv := fun kid => decide (kid ≤ 3)
    est := some ⟨[], [], pose0⟩ }

def outC1 : POut := (process cfgC initState inpA1).getD outA0

def outC2 : POut := (process cfgC outC1.st inpC2).getD outA0

def outC3 : POut := (process cfgC outC2.st inpC3).getD outA0

/-- A keyframe observing keypoint 7, used by hand-built witness states. -/
def kfW : Frame :=
  { fid := 1, time := 0, kps := [7], ini_kp_count := 1, prior := pose0, post := some pose0 }

def kfW2 : Frame :=
  { fid := 2, time := 1, kps := [7], ini_kp_count := 1, prior := pose0, post := some pose0 }

/-- A 3-D keypoint meeting the removal condition: used 5 times, inlier
once, ratio 1/5 ≤ removal ratio 1/5. -/
def kpW : Keypoint :=
  { pt3d := some v0, total_count := 5, inlier_count := 1, inlier_time := some 0 }

/-- A 3-D keypoint failing the removal condition: used 5 times, all
inliers (ratio 1 above the removal ratio 1/5), and too few keyframes
retained for the age cutoff. -/
def kpW8 : Keypoint :=
  { pt3d := some v0, total_count := 5, inlier_count := 5, inlier_time := some 0 }

/-- Witness state for map maintenance: one keyframe, one prunable 3-D
point (id 7) and one non-qualifying 3-D point (id 8). -/
def sW6 : VOState :=
  { initialized := true, keyframes := [kfW], map2d := [],
    map3d := [(7, kpW), (8, kpW8)],
    last_frame := some kfW, last_success_time := some 0, nextFrameId := 2, nextKpId := 9 }

/-- Witness state for keyframe pruning: two keyframes, empty maps. -/
def sW7 : VOState :=
  { initialized := true, keyframes := [kfW, kfW2], map2d := [], map3d := [],
    last_frame := some kfW2, last_success_time := some 0, nextFrameId := 3, nextKpId := 8 }

def cfgW7 : Config := { cfgA with max_keyframes := 1 }

/-- Result of maintenance on the `sW7` witness state. -/
def sW7out : VOState := (maintain_map cfgW7 sW7 inp0).getD initState

/-- Result of maintenance on the `sW6` witness state. -/
def sW6out : VOState := (maintain_map cfgA sW6 inp0).getD initState

/-- Initialization input detecting only 15 features: more than twice the
configured `min_inliers` of run A (2), but not more than twice the
`DEF_MIN_INLIERS` class constant (20). -/
def inpD : Inp := { inp0 with nDetect := 15 }

def outD1 : POut := (process cfgA initState inpD).getD outA0

/-- Alternative second input for run A that triangulates only keypoints
1-3, leaving 4 and 5 in `map2d`: afterwards both maps are non-empty. -/
def inpA2b : Inp :=
  { inp0 with
    time := 1
    surv := fun kid => decide (kid ≤ 5)
    est := some ⟨[], [], pose0⟩
    disp := fun kid => decide (kid ≤ 3) }

def outA2b : POut := (process cfgA outA1.st inpA2b).getD outA0

/-- The mid-call pair (state, frame) of the crashing TRACKING call of
run A, after tracking and pose estimation. -/
def prA3 : VOState × Frame := (trackingStage cfgA outA2.st inpA3).getD (initState, kfW)

/-- The reference keyframe at the crashing call of run A. -/
def rfA3 : Frame := (prA3.1.keyframes.getLast?).getD kfW

/-- The mid-call pair of the successful second call of run A, after
tracking and pose estimation. -/
def prA2 : VOState × Frame := (trackingStage cfgA outA1.st inpA2).getD (initState, kfW)

/-- Result of the failed-tracking call `inpT` made from the run-A state
`outA2.st`: pose estimation fails long after the last success, so the
engine resets. -/
def outT : POut := (process cfgA outA2.st inpT).getD outA0

/-- The mid-call pair of the failed-tracking call `inpT`. -/
def prT : VOState × Frame := (trackingStage cfgA outA2.st inpT).getD (initState, kfW)

/-- Follow-up input after the partially triangulating call `inpA2b`: every
candidate passes the displacement test, so any id still in `map2d` gets
selected for triangulation. -/
def inpE : Inp :=
  { inp0 with
    time := 2
    est := some ⟨[], [], pose0⟩
    disp := fun _ => true }

/-- Result of the follow-up call `inpE` from the run-A state `outA2b.st`. -/
def outE : POut := (process cfgA outA2b.st inpE).getD outA0

/-- The tracked-survivor id set of a call: the last frame's keypoints
passing the tracking and sanity filters. -/
def trackedKps (s : VOState) (inp : Inp) : List ℕ :=
  match s.last_frame with
  | none => []
  | some lf => lf.kps.filter (fun kid => inp.surv kid)

/-- Key-boundedness: every id in either map is below the global keypoint
id counter (freshly detected ids can therefore never collide). -/
def Bounded (s : VOState) : Prop :=
  (∀ kid ∈ mapIds s.map2d, kid < s.nextKpId) ∧
  (∀ kid ∈ mapIds s.map3d, kid < s.nextKpId)

/-- The key sets of `map2d` and `map3d` are disjoint. -/
def MapsDisjoint (s : VOState) : Prop :=
  ∀ kid, kid ∈ mapIds s.map2d → kid ∉ mapIds s.map3d

/-- Tracking-mode structural invariant: an initialized engine has at
least one keyframe and a last frame, and when the last frame still holds
keypoints the reference keyframe's initial keypoint count is positive. -/
def TrackInv (s : VOState) : Prop :=
  s.initialized = true →
    s.keyframes ≠ [] ∧
    ∃ lf, s.last_frame = some lf ∧
      (lf.kps ≠ [] → ∃ rf, s.keyframes.getLast? = some rf ∧ 0 < rf.ini_kp_count)

def Inv (s : VOState) : Prop := Bounded s ∧ MapsDisjoint s ∧ TrackInv s

/-- An id that is absent from `map2d` and below the id counter: such an
id can never re-enter `map2d`. -/
def StableGone (kid : ℕ) (s : VOState) : Prop :=
  kid < s.nextKpId ∧ kid ∉ mapIds s.map2d

end VisNav

namespace VisNav

/-! ### Association-list and slice lemmas -/

theorem mapIds_append (a b : List (ℕ × Keypoint)) :
    mapIds (a ++ b) = mapIds a ++ mapIds b := by
  simp [mapIds]

theorem mem_mapIds_eraseKey {k kid : ℕ} {m : List (ℕ × Keypoint)} :
    k ∈ mapIds (eraseKey kid m) ↔ k ∈ mapIds m ∧ k ≠ kid := by
  constructor
  · intro h
    rcases List.mem_map.mp h with ⟨p, hp, hpk⟩
    rcases List.mem_filter.mp hp with ⟨hpm, hne⟩
    subst hpk
    exact ⟨List.mem_map.mpr ⟨p, hpm, rfl⟩, by simpa using hne⟩
  · rintro ⟨h, hne⟩
    rcases List.mem_map.mp h with ⟨p, hp, hpk⟩
    subst hpk
    exact List.mem_map.mpr ⟨p, List.mem_filter.mpr ⟨hp, by simpa using hne⟩, rfl⟩

theorem lookup_isSome_iff {kid : ℕ} {m : List (ℕ × Keypoint)} :
    (List.lookup kid m).isSome = true ↔ kid ∈ mapIds m := by
  induction m with
  | nil => simp [List.lookup, mapIds]
  | cons p t ih =>
    obtain ⟨a, b⟩ := p
    by_cases h : kid = a
    · subst h
      simp [List.lookup, mapIds]
    · have hb : (kid == a) = false := by simpa using h
      rw [show List.lookup kid ((a, b) :: t) = List.lookup kid t from by simp [List.lookup, hb]]
      rw [ih]
      simp [mapIds, h]

theorem eraseKey_sublist (kid : ℕ) (m : List (ℕ × Keypoint)) :
    ∀ p ∈ eraseKey kid m, p ∈ m := by
  intro p hp
  exact (List.mem_filter.mp hp).1

theorem pyLastN_sublist {α : Type} (n : ℕ) (l : List α) :
    ∀ x ∈ pyLastN n l, x ∈ l := by
  intro x hx
  unfold pyLastN at hx
  split at hx
  · exact hx
  · exact List.mem_of_mem_drop hx

theorem pyLastN_ne_nil {α : Type} (n : ℕ) {l : List α} (h : l ≠ []) :
    pyLastN n l ≠ [] := by
  by_cases hn : n = 0
  · simpa [pyLastN, hn] using h
  · simp only [pyLastN, if_neg hn]
    intro hc
    have hlen := congrArg List.length hc
    have hpos : 0 < l.length := List.length_pos.mpr h
    simp [List.length_drop] at hlen
    omega

theorem getLast?_cons_ne_nil {α : Type} (a : α) {t : List α} (h : t ≠ []) :
    (a :: t).getLast? = t.getLast? := by
  cases t with
  | nil => exact absurd rfl h
  | cons b u => exact List.getLast?_cons_cons

theorem getLast?_drop_eq {α : Type} (k : ℕ) (l : List α) (h : l.drop k ≠ []) :
    (l.drop k).getLast? = l.getLast? := by
  induction k generalizing l with
  | zero => rfl
  | succ n ih =>
    cases l with
    | nil => simp at h
    | cons a t =>
      have ht : t.drop n ≠ [] := by simpa using h
      have htne : t ≠ [] := by
        intro hc
        subst hc
        simp at ht
      rw [List.drop_succ_cons, ih t ht, getLast?_cons_ne_nil a htne]

theorem pyLastN_getLast? {α : Type} (n : ℕ) {l : List α} (h : l ≠ []) :
    (pyLastN n l).getLast? = l.getLast? := by
  by_cases hn : n = 0
  · simp [pyLastN, hn]
  · have hne := pyLastN_ne_nil n h
    simp only [pyLastN, if_neg hn] at hne ⊢
    exact getLast?_drop_eq _ _ hne

theorem getLast?_map {α β : Type} (f : α → β) (l : List α) :
    (l.map f).getLast? = l.getLast?.map f := by
  induction l with
  | nil => rfl
  | cons a t ih =>
    cases t with
    | nil => rfl
    | cons b u => simpa [List.getLast?_cons_cons] using ih

theorem pyDropLastN_append_pyLastN {α : Type} (n : ℕ) (l : List α) :
    pyDropLastN n l ++ pyLastN n l = l := by
  by_cases hn : n = 0
  · simp [pyDropLastN, pyLastN, hn]
  · simp [pyDropLastN, pyLastN, if_neg hn]

theorem lookup_mem {kid : ℕ} {m : List (ℕ × Keypoint)} {v : Keypoint}
    (h : List.lookup kid m = some v) : (kid, v) ∈ m := by
  induction m with
  | nil => simp [List.lookup] at h
  | cons p t ih =>
    obtain ⟨a, b⟩ := p
    by_cases hk : kid = a
    · subst hk
      simp [List.lookup] at h
      subst h
      exact List.mem_cons_self _ _
    · have hb : (kid == a) = false := by simpa using hk
      simp [List.lookup, hb] at h
      exact List.mem_cons_of_mem _ (ih h)

/-! ### `del_keypoint` and folded deletions -/

theorem del_keypoint_frozen (kid : ℕ) (s : VOState) :
    (del_keypoint kid s).initialized = s.initialized ∧
    (del_keypoint kid s).nextKpId = s.nextKpId ∧
    (del_keypoint kid s).nextFrameId = s.nextFrameId ∧
    (del_keypoint kid s).last_success_time = s.last_success_time ∧
    (del_keypoint kid s).keyframes = s.keyframes.map (Frame.delKp kid) :=
  ⟨rfl, rfl, rfl, rfl, rfl⟩

theorem foldDel_frozen (l : List ℕ) (s : VOState) :
    (List.foldl (fun st kid => del_keypoint kid st) s l).initialized = s.initialized ∧
    (List.foldl (fun st kid => del_keypoint kid st) s l).nextKpId = s.nextKpId ∧
    (List.foldl (fun st kid => del_keypoint kid st) s l).nextFrameId = s.nextFrameId ∧
    (List.foldl (fun st kid => del_keypoint kid st) s l).last_success_time = s.last_success_time := by
  induction l generalizing s with
  | nil => exact ⟨rfl, rfl, rfl, rfl⟩
  | cons a t ih => exact ih (del_keypoint a s)

theorem foldDel_mem_map2d (l : List ℕ) (s : VOState) (k : ℕ) :
    k ∈ mapIds (List.foldl (fun st kid => del_keypoint kid st) s l).map2d ↔
      k ∈ mapIds s.map2d ∧ k ∉ l := by
  induction l generalizing s with
  | nil => simp
  | cons a t ih =>
    rw [List.foldl_cons, ih]
    have h2 : k ∈ mapIds (del_keypoint a s).map2d ↔ k ∈ mapIds s.map2d ∧ k ≠ a :=
      mem_mapIds_eraseKey
    rw [h2]
    simp only [List.mem_cons]
    tauto

theorem foldDel_mem_map3d (l : List ℕ) (s : VOState) (k : ℕ) :
    k ∈ mapIds (List.foldl (fun st kid => del_keypoint kid st) s l).map3d ↔
      k ∈ mapIds s.map3d ∧ k ∉ l := by
  induction l generalizing s with
  | nil => simp
  | cons a t ih =>
    rw [List.foldl_cons, ih]
    have h3 : k ∈ mapIds (del_keypoint a s).map3d ↔ k ∈ mapIds s.map3d ∧ k ≠ a :=
      mem_mapIds_eraseKey
    rw [h3]
    simp only [List.mem_cons]
    tauto

theorem foldDel_map2d_entries (l : List ℕ) (s : VOState) :
    ∀ p ∈ (List.foldl (fun st kid => del_keypoint kid st) s l).map2d, p ∈ s.map2d := by
  induction l generalizing s with
  | nil => exact fun p hp => hp
  | cons a t ih =>
    intro p hp
    exact eraseKey_sublist a s.map2d p (ih (del_keypoint a s) p hp)

theorem foldDel_map3d_entries (l : List ℕ) (s : VOState) :
    ∀ p ∈ (List.foldl (fun st kid => del_keypoint kid st) s l).map3d, p ∈ s.map3d := by
  induction l generalizing s with
  | nil => exact fun p hp => hp
  | cons a t ih =>
    intro p hp
    exact eraseKey_sublist a s.map3d p (ih (del_keypoint a s) p hp)

theorem foldDel_keyframes (l : List ℕ) (s : VOState) :
    ∃ g : Frame → Frame,
      (List.foldl (fun st kid => del_keypoint kid st) s l).keyframes = s.keyframes.map g ∧
      ∀ f : Frame, (g f).fid = f.fid ∧ (g f).ini_kp_count = f.ini_kp_count ∧
        (g f).time = f.time ∧ (g f).post = f.post ∧ ∀ k ∈ (g f).kps, k ∈ f.kps := by
  induction l generalizing s with
  | nil =>
    refine ⟨id, by simp, ?_⟩
    intro f
    exact ⟨rfl, rfl, rfl, rfl, fun k hk => hk⟩
  | cons a t ih =>
    rcases ih (del_keypoint a s) with ⟨g, hg, hprop⟩
    refine ⟨fun f => g (Frame.delKp a f), ?_, ?_⟩
    · rw [List.foldl_cons, hg]
      show (s.keyframes.map (Frame.delKp a)).map g = _
      rw [List.map_map]
      rfl
    · intro f
      rcases hprop (Frame.delKp a f) with ⟨h1, h2, h3, h4, h5⟩
      refine ⟨h1, h2, h3, h4, fun k hk => ?_⟩
      have := h5 k hk
      exact List.mem_of_mem_filter this

/-! ### `detect_features` -/

theorem detect_frozen (s : VOState) (n : ℕ) (nf : Frame) :
    (detect_features s n nf).1.initialized = s.initialized ∧
    (detect_features s n nf).1.keyframes = s.keyframes ∧
    (detect_features s n nf).1.map3d = s.map3d ∧
    (detect_features s n nf).1.last_frame = s.last_frame ∧
    (detect_features s n nf).1.last_success_time = s.last_success_time ∧
    (detect_features s n nf).1.nextFrameId = s.nextFrameId ∧
    (detect_features s n nf).1.nextKpId = s.nextKpId + n :=
  ⟨rfl, rfl, rfl, rfl, rfl, rfl, rfl⟩

theorem detect_frame (s : VOState) (n : ℕ) (nf : Frame) :
    (detect_features s n nf).2.fid = nf.fid ∧
    (detect_features s n nf).2.time = nf.time ∧
    (detect_features s n nf).2.post = nf.post ∧
    (detect_features s n nf).2.prior = nf.prior ∧
    (detect_features s n nf).2.ini_kp_count = nf.kps.length + n :=
  ⟨rfl, rfl, rfl, rfl, rfl⟩

theorem detect_mem_map2d {s : VOState} {n : ℕ} {nf : Frame} {k : ℕ} :
    k ∈ mapIds (detect_features s n nf).1.map2d ↔
      k ∈ mapIds s.map2d ∨ (s.nextKpId ≤ k ∧ k < s.nextKpId + n) := by
  show k ∈ mapIds (s.map2d ++ _) ↔ _
  rw [mapIds_append, List.mem_append]
  constructor
  · rintro (h | h)
    · exact Or.inl h
    · simp only [mapIds, List.map_map, List.mem_map, List.mem_range] at h
      rcases h with ⟨i, hi, hk⟩
      simp only [Function.comp] at hk
      omega
  · rintro (h | h)
    · exact Or.inl h
    · refine Or.inr ?_
      simp only [mapIds, List.map_map, List.mem_map, List.mem_range]
      exact ⟨k - s.nextKpId, by omega, by simp [Function.comp]; omega⟩

theorem detect_map2d_entries {s : VOState} {n : ℕ} {nf : Frame} :
    ∀ p ∈ (detect_features s n nf).1.map2d, p ∈ s.map2d ∨ p.2 = Keypoint.new := by
  intro p hp
  rcases List.mem_append.mp hp with h | h
  · exact Or.inl h
  · rcases List.mem_map.mp h with ⟨kid, _, hpk⟩
    exact Or.inr (by rw [← hpk])

/-! ### `triangulate` -/

theorem triangulate_nil (s : VOState) (tri : ℕ → Vec3) : triangulate s [] tri = some s := rfl

theorem triangulate_cons_none {s : VOState} {a : ℕ} {t : List ℕ} {tri : ℕ → Vec3}
    (h : List.lookup a s.map2d = none) : triangulate s (a :: t) tri = none := by
  unfold triangulate
  rw [List.foldlM_cons]
  simp [h]

theorem triangulate_cons_some {s : VOState} {a : ℕ} {t : List ℕ} {tri : ℕ → Vec3} {kp : Keypoint}
    (h : List.lookup a s.map2d = some kp) :
    triangulate s (a :: t) tri =
      triangulate
        { s with
          map2d := eraseKey a s.map2d
          map3d := s.map3d ++ [(a, { kp with pt3d := some (tri a) })] } t tri := by
  unfold triangulate
  rw [List.foldlM_cons]
  simp [h]

theorem triangulate_frozen (cands : List ℕ) (tri : ℕ → Vec3) :
    ∀ s s' : VOState, triangulate s cands tri = some s' →
      s'.initialized = s.initialized ∧ s'.keyframes = s.keyframes ∧
      s'.last_frame = s.last_frame ∧ s'.last_success_time = s.last_success_time ∧
      s'.nextKpId = s.nextKpId ∧ s'.nextFrameId = s.nextFrameId := by
  induction cands with
  | nil =>
    intro s s' h
    rw [triangulate_nil] at h
    cases h
    exact ⟨rfl, rfl, rfl, rfl, rfl, rfl⟩
  | cons a t ih =>
    intro s s' h
    cases hl : List.lookup a s.map2d with
    | none => rw [triangulate_cons_none hl] at h; cases h
    | some kp =>
      rw [triangulate_cons_some hl] at h
      rcases ih _ _ h with ⟨h1, h2, h3, h4, h5, h6⟩
      exact ⟨h1, h2, h3, h4, h5, h6⟩

theorem triangulate_map2d_sub (cands : List ℕ) (tri : ℕ → Vec3) :
    ∀ s s' : VOState, triangulate s cands tri = some s' →
      ∀ k, k ∈ mapIds s'.map2d → k ∈ mapIds s.map2d := by
  induction cands with
  | nil =>
    intro s s' h
    rw [triangulate_nil] at h
    cases h
    exact fun k hk => hk
  | cons a t ih =>
    intro s s' h k hk
    cases hl : List.lookup a s.map2d with
    | none => rw [triangulate_cons_none hl] at h; cases h
    | some kp =>
      rw [triangulate_cons_some hl] at h
      have := ih _ _ h k hk
      exact (mem_mapIds_eraseKey.mp this).1

theorem triangulate_map3d_mono (cands : List ℕ) (tri : ℕ → Vec3) :
    ∀ s s' : VOState, triangulate s cands tri = some s' →
      ∀ k, k ∈ mapIds s.map3d → k ∈ mapIds s'.map3d := by
  induction cands with
  | nil =>
    intro s s' h
    rw [triangulate_nil] at h
    cases h
    exact fun k hk => hk
  | cons a t ih =>
    intro s s' h k hk
    cases hl : List.lookup a s.map2d with
    | none => rw [triangulate_cons_none hl] at h; cases h
    | some kp =>
      rw [triangulate_cons_some hl] at h
      refine ih _ _ h k ?_
      show k ∈ mapIds (s.map3d ++ _)
      rw [mapIds_append]
      exact List.mem_append.mpr (Or.inl hk)

theorem triangulate_map3d_of (cands : List ℕ) (tri : ℕ → Vec3) :
    ∀ s s' : VOState, triangulate s cands tri = some s' →
      ∀ k, k ∈ mapIds s'.map3d → k ∈ mapIds s.map3d ∨ k ∈ cands := by
  induction cands with
  | nil =>
    intro s s' h
    rw [triangulate_nil] at h
    cases h
    exact fun k hk => Or.inl hk
  | cons a t ih =>
    intro s s' h k hk
    cases hl : List.lookup a s.map2d with
    | none => rw [triangulate_cons_none hl] at h; cases h
    | some kp =>
      rw [triangulate_cons_some hl] at h
      rcases ih _ _ h k hk with hm | hm
      · have : k ∈ mapIds s.map3d ++ mapIds [(a, { kp with pt3d := some (tri a) })] := by
          rw [← mapIds_append]; exact hm
        rcases List.mem_append.mp this with h1 | h1
        · exact Or.inl h1
        · simp [mapIds] at h1
          exact Or.inr (by simp [h1])
      · exact Or.inr (List.mem_cons_of_mem _ hm)

theorem triangulate_cands_sub (cands : List ℕ) (tri : ℕ → Vec3) :
    ∀ s s' : VOState, triangulate s cands tri = some s' →
      ∀ k ∈ cands, k ∈ mapIds s.map2d := by
  induction cands with
  | nil => intro s s' _ k hk; cases hk
  | cons a t ih =>
    intro s s' h k hk
    cases hl : List.lookup a s.map2d with
    | none => rw [triangulate_cons_none hl] at h; cases h
    | some kp =>
      rcases List.mem_cons.mp hk with rfl | hm
      · exact lookup_isSome_iff.mp (by simp [hl])
      · rw [triangulate_cons_some hl] at h
        have := ih _ _ h k hm
        exact (mem_mapIds_eraseKey.mp this).1

theorem triangulate_moves (cands : List ℕ) (tri : ℕ → Vec3) :
    ∀ s s' : VOState, triangulate s cands tri = some s' →
      ∀ k ∈ cands, k ∉ mapIds s'.map2d ∧ k ∈ mapIds s'.map3d := by
  induction cands with
  | nil => intro s s' _ k hk; cases hk
  | cons a t ih =>
    intro s s' h k hk
    cases hl : List.lookup a s.map2d with
    | none => rw [triangulate_cons_none hl] at h; cases h
    | some kp =>
      rw [triangulate_cons_some hl] at h
      rcases List.mem_cons.mp hk with rfl | hm
      · constructor
        · intro hc
          have := triangulate_map2d_sub t tri _ _ h k hc
          exact (mem_mapIds_eraseKey.mp this).2 rfl
        · refine triangulate_map3d_mono t tri _ _ h k ?_
          show k ∈ mapIds (s.map3d ++ _)
          rw [mapIds_append]
          refine List.mem_append.mpr (Or.inr ?_)
          simp [mapIds]
      · exact ih _ _ h k hm

theorem triangulate_map3d_entries (cands : List ℕ) (tri : ℕ → Vec3) :
    ∀ s s' : VOState, triangulate s cands tri = some s' →
      ∀ p ∈ s'.map3d, p ∈ s.map3d ∨ ∃ q, q ∈ s.map2d ∧ p.2.total_count = q.2.total_count := by
  induction cands with
  | nil =>
    intro s s' h
    rw [triangulate_nil] at h
    cases h
    exact fun p hp => Or.inl hp
  | cons a t ih =>
    intro s s' h p hp
    cases hl : List.lookup a s.map2d with
    | none => rw [triangulate_cons_none hl] at h; cases h
    | some kp =>
      rw [triangulate_cons_some hl] at h
      rcases ih _ _ h p hp with hm | hm
      · rcases List.mem_append.mp hm with h1 | h1
        · exact Or.inl h1
        · refine Or.inr ⟨(a, kp), lookup_mem hl, ?_⟩
          simp at h1
          rw [h1]
      · rcases hm with ⟨q, hq, hqt⟩
        exact Or.inr ⟨q, eraseKey_sublist a s.map2d q hq, hqt⟩

/-! ### `estimate_pose` -/

theorem mapIds_bumpTotal (kid : ℕ) (m : List (ℕ × Keypoint)) :
    mapIds (bumpTotal kid m) = mapIds m := by
  unfold bumpTotal mapIds
  rw [List.map_map]
  apply List.map_congr_left
  intro p _
  by_cases h : p.1 = kid <;> simp [h]

theorem mapIds_bumpInlier (t : ℚ) (kid : ℕ) (m : List (ℕ × Keypoint)) :
    mapIds (bumpInlier t kid m) = mapIds m := by
  unfold bumpInlier mapIds
  rw [List.map_map]
  apply List.map_congr_left
  intro p _
  by_cases h : p.1 = kid <;> simp [h]

theorem mapIds_foldBumpTotal (l : List ℕ) (m : List (ℕ × Keypoint)) :
    mapIds (List.foldl (fun m kid => bumpTotal kid m) m l) = mapIds m := by
  induction l generalizing m with
  | nil => rfl
  | cons a t ih => rw [List.foldl_cons, ih, mapIds_bumpTotal]

theorem mapIds_foldBumpInlier (tm : ℚ) (l : List ℕ) (m : List (ℕ × Keypoint)) :
    mapIds (List.foldl (fun m kid => bumpInlier tm kid m) m l) = mapIds m := by
  induction l generalizing m with
  | nil => rfl
  | cons a t ih => rw [List.foldl_cons, ih, mapIds_bumpInlier]

theorem estimate_pose_frozen {cfg : Config} {s : VOState} {nf : Frame} {inp : Inp}
    {s' : VOState} {nf' : Frame} (h : estimate_pose cfg s nf inp = some (s', nf')) :
    s'.keyframes = s.keyframes ∧ s'.map2d = s.map2d ∧ s'.initialized = s.initialized ∧
    s'.last_frame = s.last_frame ∧ s'.nextKpId = s.nextKpId ∧ s'.nextFrameId = s.nextFrameId ∧
    mapIds s'.map3d = mapIds s.map3d ∧
    nf'.fid = nf.fid ∧ nf'.time = nf.time ∧ nf'.kps = nf.kps ∧
    nf'.ini_kp_count = nf.ini_kp_count ∧ nf'.prior = nf.prior := by
  unfold estimate_pose at h
  split at h
  · cases h
  · split at h
    · cases h
    · split at h
      · cases h
        exact ⟨rfl, rfl, rfl, rfl, rfl, rfl, rfl, rfl, rfl, rfl, rfl, rfl⟩
      · simp only [] at h
        split at h
        · cases h
          refine ⟨rfl, rfl, rfl, rfl, rfl, rfl, ?_, rfl, rfl, rfl, rfl, rfl⟩
          show mapIds (List.foldl _ (List.foldl _ s.map3d _) _) = mapIds s.map3d
          rw [mapIds_foldBumpInlier, mapIds_foldBumpTotal]
        · cases h
          exact ⟨rfl, rfl, rfl, rfl, rfl, rfl, rfl, rfl, rfl, rfl, rfl, rfl⟩

theorem estimate_pose_post {cfg : Config} {s : VOState} {nf : Frame} {inp : Inp}
    {s' : VOState} {nf' : Frame} (h : estimate_pose cfg s nf inp = some (s', nf')) :
    (nf' = nf ∧ s' = s) ∨
    (nf'.post.isSome = true ∧ s'.last_success_time = some nf.time ∧ 0 < nf.kps.length) := by
  unfold estimate_pose at h
  split at h
  · cases h
  · split at h
    · cases h
    · split at h
      · cases h
        exact Or.inl ⟨rfl, rfl⟩
      · simp only [] at h
        split at h
        next hfeas =>
          cases h
          refine Or.inr ⟨rfl, rfl, ?_⟩
          rcases hfeas with ⟨_, h3⟩ | h2
          · exact Nat.lt_of_lt_of_le (Nat.lt_of_le_of_lt (Nat.zero_le _) h3)
              (List.length_filter_le _ _)
          · exact Nat.lt_of_lt_of_le (Nat.lt_of_le_of_lt (Nat.zero_le _) h2)
              (List.length_filter_le _ _)
        next =>
          cases h
          exact Or.inl ⟨rfl, rfl⟩

/-! ### `track_keypoints` -/

theorem track_spec {s : VOState} {nf : Frame} {surv : ℕ → Bool} {s' : VOState} {nf' : Frame}
    (h : track_keypoints s nf surv = some (s', nf')) :
    ∃ lf, s.last_frame = some lf ∧
      ((0 < lf.kps.length ∧
        s' = List.foldl (fun st kid => del_keypoint kid st) s
               (lf.kps.filter (fun kid => !surv kid)) ∧
        nf' = { nf with kps := lf.kps.filter (fun kid => surv kid),
                        ini_kp_count := (lf.kps.filter (fun kid => surv kid)).length }) ∨
       (lf.kps = [] ∧ s' = s ∧ nf' = nf)) := by
  unfold track_keypoints at h
  split at h
  · cases h
  · rename_i lf hlf
    refine ⟨lf, hlf, ?_⟩
    by_cases hpos : 0 < lf.kps.length
    · rw [if_pos hpos] at h
      simp only [] at h
      cases h
      exact Or.inl ⟨hpos, rfl, rfl⟩
    · rw [if_neg hpos] at h
      cases h
      have : lf.kps = [] := by
        cases hk : lf.kps with
        | nil => rfl
        | cons a t => rw [hk] at hpos; simp at hpos
      exact Or.inr ⟨this, rfl, rfl⟩

/-! ### `triangulation_kps` -/

theorem triangulation_kps_aux_sub (s : VOState) (disp : ℕ → Bool) (l : List ℕ) :
    ∀ acc res : List ℕ,
      List.foldlM (fun acc kid =>
        if (List.lookup kid s.map2d).isSome then
          if (s.keyframes.filter (fun f => kid ∈ f.kps)).isEmpty then none
          else some (if disp kid then acc ++ [kid] else acc)
        else some acc) acc l = some res →
      (∀ k ∈ acc, k ∈ mapIds s.map2d) → ∀ k ∈ res, k ∈ mapIds s.map2d := by
  induction l with
  | nil =>
    intro acc res h hacc
    rw [List.foldlM_nil] at h
    cases h
    exact hacc
  | cons a t ih =>
    intro acc res h hacc
    rw [List.foldlM_cons] at h
    by_cases hl : (List.lookup a s.map2d).isSome = true
    · rw [if_pos hl] at h
      by_cases he : (s.keyframes.filter (fun f => a ∈ f.kps)).isEmpty = true
      · rw [if_pos he] at h
        cases h
      · rw [if_neg he] at h
        refine ih _ _ h ?_
        by_cases hd : disp a = true
        · rw [if_pos hd]
          intro k hk
          rcases List.mem_append.mp hk with hk1 | hk1
          · exact hacc k hk1
          · simp at hk1
            subst hk1
            exact lookup_isSome_iff.mp hl
        · rw [if_neg hd]
          exact hacc
    · rw [if_neg hl] at h
      exact ih _ _ h hacc

theorem triangulation_kps_sub {s : VOState} {nf : Frame} {disp : ℕ → Bool} {res : List ℕ}
    (h : triangulation_kps s nf disp = some res) : ∀ k ∈ res, k ∈ mapIds s.map2d := by
  exact triangulation_kps_aux_sub s disp nf.kps [] res h (by intro k hk; cases hk)

/-! ### `is_new_keyframe` -/

theorem is_new_keyframe_post_none {cfg : Config} {s : VOState} {nf : Frame} {inp : Inp}
    {r : Bool × Option (List ℕ)} (h : is_new_keyframe cfg s nf inp = some r)
    (hn : nf.post = none) : r = (false, none) := by
  unfold is_new_keyframe at h
  cases hrf : s.keyframes.getLast? with
  | none => rw [hrf] at h; cases h
  | some rf =>
    rw [hrf, hn] at h
    cases h
    rfl

theorem is_new_keyframe_cache {cfg : Config} {s : VOState} {nf : Frame} {inp : Inp}
    {knf : Bool} {tk : List ℕ}
    (h : is_new_keyframe cfg s nf inp = some (knf, some tk)) :
    triangulation_kps s nf inp.disp = some tk := by
  unfold is_new_keyframe at h
  split at h
  · cases h
  · split at h
    · cases h
    · split at h
      · cases h
      · split at h
        · cases h
        · split at h
          · cases h
          · split at h
            · split at h
              · cases h
              · rename_i heq
                split at h
                · cases h
                · split at h
                  · cases h
                    exact heq
                  · split at h
                    · cases h
                      exact heq
                    · cases h
                      exact heq
            · split at h
              · cases h
              · cases h

/-! ### `prune_keyframes`, `prune_map3d`, `bundle_adjustment` -/

theorem prune_keyframes_frozen (cfg : Config) (s : VOState) :
    (prune_keyframes cfg s).keyframes = pyLastN cfg.max_keyframes s.keyframes ∧
    (prune_keyframes cfg s).map2d = s.map2d ∧
    (prune_keyframes cfg s).map3d = s.map3d ∧
    (prune_keyframes cfg s).initialized = s.initialized ∧
    (prune_keyframes cfg s).last_frame = s.last_frame ∧
    (prune_keyframes cfg s).last_success_time = s.last_success_time ∧
    (prune_keyframes cfg s).nextKpId = s.nextKpId ∧
    (prune_keyframes cfg s).nextFrameId = s.nextFrameId :=
  ⟨rfl, rfl, rfl, rfl, rfl, rfl, rfl, rfl⟩

theorem pruneAcc_mem (cfg : Config) (kfs : List Frame) :
    ∀ (l : List (ℕ × Keypoint)) (acc res : List ℕ),
      List.foldlM (fun acc p =>
        (removalPred cfg kfs p.2).map (fun b => if b then acc ++ [p.1] else acc)) acc l =
          some res →
      ∀ k, k ∈ res ↔
        (k ∈ acc ∨ ∃ p, p ∈ l ∧ p.1 = k ∧ removalPred cfg kfs p.2 = some true) := by
  intro l
  induction l with
  | nil =>
    intro acc res h k
    rw [List.foldlM_nil] at h
    cases h
    simp
  | cons p t ih =>
    intro acc res h k
    rw [List.foldlM_cons] at h
    cases hrp : removalPred cfg kfs p.2 with
    | none => rw [hrp] at h; cases h
    | some b =>
      rw [hrp] at h
      simp only [Option.map_some'] at h
      rw [ih _ _ h k]
      cases b with
      | true =>
        simp only [if_pos rfl]
        constructor
        · rintro (hk | hk)
          · rcases List.mem_append.mp hk with h1 | h1
            · exact Or.inl h1
            · simp at h1
              exact Or.inr ⟨p, List.mem_cons_self _ _, h1.symm, hrp⟩
          · rcases hk with ⟨q, hq, hqk, hqp⟩
            exact Or.inr ⟨q, List.mem_cons_of_mem _ hq, hqk, hqp⟩
        · rintro (hk | hk)
          · exact Or.inl (List.mem_append.mpr (Or.inl hk))
          · rcases hk with ⟨q, hq, hqk, hqp⟩
            rcases List.mem_cons.mp hq with rfl | hq2
            · exact Or.inl (List.mem_append.mpr (Or.inr (by simp [hqk])))
            · exact Or.inr ⟨q, hq2, hqk, hqp⟩
      | false =>
        constructor
        · rintro (hk | hk)
          · exact Or.inl hk
          · rcases hk with ⟨q, hq, hqk, hqp⟩
            exact Or.inr ⟨q, List.mem_cons_of_mem _ hq, hqk, hqp⟩
        · rintro (hk | hk)
          · exact Or.inl hk
          · rcases hk with ⟨q, hq, hqk, hqp⟩
            rcases List.mem_cons.mp hq with rfl | hq2
            · rw [hrp] at hqp
              cases hqp
            · exact Or.inr ⟨q, hq2, hqk, hqp⟩

theorem prune_map3d_spec {cfg : Config} {s s' : VOState} (h : prune_map3d cfg s = some s') :
    ∃ rem : List ℕ,
      s' = List.foldl (fun st kid => del_keypoint kid st) s rem ∧
      ∀ k, k ∈ rem ↔ ∃ p, p ∈ s.map3d ∧ p.1 = k ∧
        removalPred cfg s.keyframes p.2 = some true := by
  unfold prune_map3d at h
  split at h
  · cases h
  · rename_i rem hrem
    cases h
    refine ⟨rem, rfl, ?_⟩
    intro k
    rw [pruneAcc_mem cfg s.keyframes s.map3d [] rem hrem k]
    simp

theorem prune_map3d_none {cfg : Config} {s : VOState} {p : ℕ × Keypoint}
    (hp : p ∈ s.map3d) (hnone : removalPred cfg s.keyframes p.2 = none) :
    prune_map3d cfg s = none := by
  unfold prune_map3d
  have hfold : ∀ (l : List (ℕ × Keypoint)) (acc : List ℕ), p ∈ l →
      List.foldlM (fun acc p =>
        (removalPred cfg s.keyframes p.2).map (fun b => if b then acc ++ [p.1] else acc)) acc l =
        none := by
    intro l
    induction l with
    | nil => intro acc hm; cases hm
    | cons q t ih =>
      intro acc hm
      rw [List.foldlM_cons]
      rcases List.mem_cons.mp hm with rfl | hm2
      · rw [hnone]
        rfl
      · cases hrq : removalPred cfg s.keyframes q.2 with
        | none => rfl
        | some b =>
          simp only [Option.map_some']
          exact ih _ hm2
  rw [hfold s.map3d [] hp]

theorem map_split_eq {α β : Type} (f : α → β) (g : α → α) (hg : ∀ x, f (g x) = f x)
    (n : ℕ) (l : List α) :
    List.map f (pyDropLastN n l) ++ List.map (f ∘ g) (pyLastN n l) = List.map f l := by
  rw [show List.map (f ∘ g) (pyLastN n l) = List.map f (pyLastN n l) from
    List.map_congr_left fun x _ => hg x, ← List.map_append, pyDropLastN_append_pyLastN]

theorem bundle_adjustment_spec {cfg : Config} {s : VOState} {inp : Inp} {s' : VOState}
    (h : bundle_adjustment cfg s inp = some s') :
    mapIds s'.map3d = mapIds s.map3d ∧
    s'.map2d = s.map2d ∧ s'.initialized = s.initialized ∧ s'.nextKpId = s.nextKpId ∧
    s'.nextFrameId = s.nextFrameId ∧ s'.last_frame = s.last_frame ∧
    s'.last_success_time = s.last_success_time ∧
    s'.keyframes.map Frame.fid = s.keyframes.map Frame.fid ∧
    s'.keyframes.map Frame.ini_kp_count = s.keyframes.map Frame.ini_kp_count ∧
    s'.keyframes.map Frame.kps = s.keyframes.map Frame.kps ∧
    (∀ rf, s.keyframes.getLast? = some rf → rf.post.isSome = true →
      ∃ rf', s'.keyframes.getLast? = some rf' ∧ rf'.post.isSome = true) := by
  unfold bundle_adjustment at h
  simp only [] at h
  generalize (if cfg.max_ba_keyframes = 0 then s.keyframes.length else cfg.max_ba_keyframes) =
    mk at h
  split at h
  · cases h
    refine ⟨rfl, rfl, rfl, rfl, rfl, rfl, rfl, rfl, rfl, rfl, ?_⟩
    intro rf hrf hps
    exact ⟨rf, hrf, hps⟩
  · split at h
    · cases h
    · cases h
      refine ⟨?_, rfl, rfl, rfl, rfl, rfl, rfl, ?_, ?_, ?_, ?_⟩
      · show mapIds (s.map3d.map _) = mapIds s.map3d
        unfold mapIds
        rw [List.map_map]
        apply List.map_congr_left
        intro p _
        by_cases hp : (List.lookup p.1 (s.map3d.filter (fun p => 0 < p.2.inlier_count))).isSome =
            true <;> simp [hp]
      pick_goal 4
      · intro rf hrf _
        have hkne : s.keyframes ≠ [] := by
          intro hc
          rw [hc] at hrf
          cases hrf
        have hlne : (pyLastN mk s.keyframes).map (fun f =>
            ({ fid := f.fid, time := f.time, kps := f.kps, ini_kp_count := f.ini_kp_count,
               prior := f.prior, post := some (inp.baPose f.fid) } : Frame)) ≠ [] := by
          intro hc
          exact pyLastN_ne_nil mk hkne (List.map_eq_nil_iff.mp hc)
        show ∃ rf', (pyDropLastN mk s.keyframes ++ _).getLast? = some rf' ∧ _
        rw [List.getLast?_append_of_ne_nil _ hlne, getLast?_map]
        cases hgl : (pyLastN mk s.keyframes).getLast? with
        | none => exact absurd (List.getLast?_eq_none_iff.mp hgl) (pyLastN_ne_nil mk hkne)
        | some x => exact ⟨_, rfl, rfl⟩
      all_goals
        show List.map _ (pyDropLastN _ s.keyframes ++ (pyLastN _ s.keyframes).map _) = _
        rw [List.map_append, List.map_map]
        exact map_split_eq _ _ (fun f => rfl) _ _

theorem triangulate_disjoint {s s' : VOState} {c : List ℕ} {tri : ℕ → Vec3}
    (h : triangulate s c tri = some s') (hd : MapsDisjoint s) : MapsDisjoint s' := by
  intro k hk2 hk3
  have hk2s := triangulate_map2d_sub c tri _ _ h k hk2
  rcases triangulate_map3d_of c tri _ _ h k hk3 with hm | hm
  · exact hd k hk2s hm
  · exact (triangulate_moves c tri _ _ h k hm).1 hk2

/-! ### `add_new_keyframe` -/

theorem add_spec {cfg : Config} {s : VOState} {nf : Frame} {inp : Inp}
    {cache : Option (List ℕ)} {s' : VOState} {nf' : Frame} {tk : List ℕ}
    (h : add_new_keyframe cfg s nf inp cache = some (s', nf', tk)) :
    nf' = (detect_features s inp.nDetect nf).2 ∧
    ((pose3dEnabled cfg = false ∧ tk = [] ∧
      s' = { (detect_features s inp.nDetect nf).1 with
             keyframes := (detect_features s inp.nDetect nf).1.keyframes ++ [nf'] }) ∨
     (pose3dEnabled cfg = true ∧
      (cache = some tk ∨ (cache = none ∧
        triangulation_kps
          { (detect_features s inp.nDetect nf).1 with
            keyframes := (detect_features s inp.nDetect nf).1.keyframes ++ [nf'] }
          nf' inp.disp = some tk)) ∧
      triangulate
        { (detect_features s inp.nDetect nf).1 with
          keyframes := (detect_features s inp.nDetect nf).1.keyframes ++ [nf'] }
        tk inp.tri = some s')) := by
  unfold add_new_keyframe at h
  simp only [] at h
  split at h
  next h3 =>
    split at h
    · cases h
    · rename_i tk0 heq
      split at h
      · cases h
      · rename_i s3 htr
        cases h
        refine ⟨rfl, Or.inr ⟨h3, ?_, htr⟩⟩
        cases hc : cache with
        | some tkc =>
          rw [hc] at heq
          simp only [] at heq
          cases heq
          exact Or.inl rfl
        | none =>
          rw [hc] at heq
          exact Or.inr ⟨rfl, heq⟩
  next h3 =>
    cases h
    exact ⟨rfl, Or.inl ⟨by simpa using h3, rfl, rfl⟩⟩

/-! ### `trackingStage` -/

theorem trackingStage_spec {cfg : Config} {s : VOState} {inp : Inp} {s2 : VOState} {nf2 : Frame}
    (h : trackingStage cfg s inp = some (s2, nf2)) :
    s2.initialized = s.initialized ∧
    s2.nextKpId = s.nextKpId ∧
    s2.nextFrameId = s.nextFrameId + 1 ∧
    (∀ k ∈ mapIds s2.map2d, k ∈ mapIds s.map2d) ∧
    (∀ k ∈ mapIds s2.map3d, k ∈ mapIds s.map3d) ∧
    (MapsDisjoint s → MapsDisjoint s2) ∧
    (∀ p ∈ s2.map2d, p ∈ s.map2d) ∧
    s2.keyframes.length = s.keyframes.length ∧
    (∀ rf, s.keyframes.getLast? = some rf → ∃ rf', s2.keyframes.getLast? = some rf' ∧
      rf'.ini_kp_count = rf.ini_kp_count) ∧
    nf2.fid = s.nextFrameId ∧ nf2.time = inp.time ∧ nf2.prior = inp.prior ∧
    nf2.kps = trackedKps s inp ∧
    (nf2.post = none → s2.last_success_time = s.last_success_time) ∧
    (nf2.post.isSome = true →
      s2.last_success_time = some inp.time ∧ 0 < (trackedKps s inp).length) := by
  unfold trackingStage at h
  simp only [] at h
  split at h
  · cases h
  · rename_i s1 nf1 heqt
    rcases track_spec heqt with ⟨lf, hlf, hcases⟩
    have hlfs : s.last_frame = some lf := hlf
    have htr : trackedKps s inp = lf.kps.filter (fun kid => inp.surv kid) := by
      unfold trackedKps
      rw [hlfs]
    rcases estimate_pose_frozen h with
      ⟨ekf, e2d, einit, elf, ekp, efid, e3d, ffid, ftime, fkps, fini, fprior⟩
    rcases hcases with ⟨hpos, hs1, hnf1⟩ | ⟨hnil, hs1, hnf1⟩
    all_goals subst hs1 hnf1
    · rcases foldDel_frozen (lf.kps.filter (fun kid => !inp.surv kid)) (initFrame s inp).1 with
        ⟨d_init, d_nkp, d_nfr, d_lst⟩
      refine ⟨by rw [einit, d_init]; rfl, by rw [ekp, d_nkp]; rfl, by rw [efid, d_nfr]; rfl,
        ?_, ?_, ?_, ?_, ?_, ?_, ?_, ?_, ?_, ?_, ?_, ?_⟩
      · intro k hk
        rw [e2d] at hk
        exact (foldDel_mem_map2d _ _ k).mp hk |>.1
      · intro k hk
        rw [e3d] at hk
        exact (foldDel_mem_map3d _ _ k).mp hk |>.1
      · intro hd k hk2 hk3
        rw [e2d] at hk2
        rw [e3d] at hk3
        exact hd k ((foldDel_mem_map2d _ _ k).mp hk2).1 ((foldDel_mem_map3d _ _ k).mp hk3).1
      · intro p hp
        rw [e2d] at hp
        exact foldDel_map2d_entries _ (initFrame s inp).1 p hp
      · rcases foldDel_keyframes (lf.kps.filter (fun kid => !inp.surv kid))
          (initFrame s inp).1 with ⟨g, hg, hgp⟩
        rw [ekf, hg]
        simp only [List.length_map]
        rfl
      · rcases foldDel_keyframes (lf.kps.filter (fun kid => !inp.surv kid))
          (initFrame s inp).1 with ⟨g, hg, hgp⟩
        intro rf hrf
        rw [ekf, hg]
        refine ⟨g rf, ?_, (hgp rf).2.1⟩
        rw [getLast?_map]
        show Option.map g s.keyframes.getLast? = _
        rw [hrf]
        rfl
      · rw [ffid]
        rfl
      · rw [ftime]
        rfl
      · rw [fprior]
        rfl
      · rw [fkps, htr]
      · intro hpn
        rcases estimate_pose_post h with ⟨hfe, hse⟩ | ⟨hps, _, _⟩
        · rw [hse, d_lst]
          rfl
        · rw [hpn] at hps
          cases hps
      · intro hps
        rcases estimate_pose_post h with ⟨hfe, hse⟩ | ⟨_, hst, hkl⟩
        · rw [hfe] at hps
          simp [initFrame] at hps
        · rw [htr]
          exact ⟨hst, hkl⟩
    · refine ⟨einit, ekp, efid, ?_, ?_, ?_, ?_, ?_, ?_, ffid, ftime, fprior, ?_, ?_, ?_⟩
      · intro k hk
        rw [e2d] at hk
        exact hk
      · intro k hk
        rw [e3d] at hk
        exact hk
      · intro hd k hk2 hk3
        rw [e2d] at hk2
        rw [e3d] at hk3
        exact hd k hk2 hk3
      · intro p hp
        rw [e2d] at hp
        exact hp
      · rw [ekf]
        rfl
      · intro rf hrf
        rw [ekf]
        exact ⟨rf, hrf, rfl⟩
      · rw [fkps, htr, hnil]
        rfl
      · intro hpn
        rcases estimate_pose_post h with ⟨hfe, hse⟩ | ⟨hps, _, _⟩
        · rw [hse]
          rfl
        · rw [hpn] at hps
          cases hps
      · intro hps
        rcases estimate_pose_post h with ⟨hfe, hse⟩ | ⟨_, hst, hkl⟩
        · rw [hfe] at hps
          simp [initFrame] at hps
        · simp [initFrame] at hkl

/-! ### Aggregate facts about `add_new_keyframe` -/

theorem add_facts {cfg : Config} {s : VOState} {nf : Frame} {inp : Inp}
    {cache : Option (List ℕ)} {s' : VOState} {nf' : Frame} {tk : List ℕ}
    (h : add_new_keyframe cfg s nf inp cache = some (s', nf', tk)) :
    s'.initialized = s.initialized ∧
    s'.keyframes = s.keyframes ++ [nf'] ∧
    s'.last_frame = s.last_frame ∧
    s'.last_success_time = s.last_success_time ∧
    s'.nextFrameId = s.nextFrameId ∧
    s'.nextKpId = s.nextKpId + inp.nDetect ∧
    nf'.fid = nf.fid ∧ nf'.time = nf.time ∧ nf'.post = nf.post ∧ nf'.prior = nf.prior ∧
    nf'.ini_kp_count = nf.kps.length + inp.nDetect ∧
    nf'.kps.length = nf.kps.length + inp.nDetect ∧
    (∀ k ∈ mapIds s'.map2d,
      k ∈ mapIds s.map2d ∨ (s.nextKpId ≤ k ∧ k < s.nextKpId + inp.nDetect)) ∧
    (∀ k ∈ mapIds s'.map3d,
      k ∈ mapIds s.map3d ∨ k ∈ mapIds s.map2d ∨
        (s.nextKpId ≤ k ∧ k < s.nextKpId + inp.nDetect)) ∧
    (∀ k ∈ tk, k ∈ mapIds s.map2d ∨ (s.nextKpId ≤ k ∧ k < s.nextKpId + inp.nDetect)) ∧
    (∀ k ∈ tk, k ∉ mapIds s'.map2d ∧ k ∈ mapIds s'.map3d) ∧
    ((∀ k ∈ mapIds s.map3d, k < s.nextKpId) → MapsDisjoint s → MapsDisjoint s') := by
  have hdet2 := detect_frame s inp.nDetect nf
  have hkpslen : (detect_features s inp.nDetect nf).2.kps.length =
      nf.kps.length + inp.nDetect := by
    show (nf.kps ++ _).length = _
    simp [detect_features]
  rcases add_spec h with ⟨hnf, hc⟩
  rcases hc with ⟨h2d, htk, hs⟩ | ⟨h3d, hcache, htr⟩
  · subst hs
    subst htk
    refine ⟨rfl, rfl, rfl, rfl, rfl, rfl, by rw [hnf]; exact hdet2.1, by rw [hnf]; exact hdet2.2.1,
      by rw [hnf]; exact hdet2.2.2.1, by rw [hnf]; exact hdet2.2.2.2.1,
      by rw [hnf]; exact hdet2.2.2.2.2, by rw [hnf]; exact hkpslen, ?_, ?_, ?_, ?_, ?_⟩
    · intro k hk
      exact (@detect_mem_map2d s inp.nDetect nf k).mp hk
    · intro k hk
      exact Or.inl hk
    · intro k hk
      cases hk
    · intro k hk
      cases hk
    · intro hb hd k hk2 hk3
      have h2 := (@detect_mem_map2d s inp.nDetect nf k).mp hk2
      rcases h2 with h2 | h2
      · exact hd k h2 hk3
      · exact absurd (hb k hk3) (by omega)
  · -- 3-D path: detection then triangulation of the candidate set
    have hmid3 : mapIds ({ (detect_features s inp.nDetect nf).1 with
        keyframes := (detect_features s inp.nDetect nf).1.keyframes ++ [nf'] } :
        VOState).map3d = mapIds s.map3d := rfl
    rcases triangulate_frozen tk inp.tri _ _ htr with ⟨tinit, tkf, tlf, tlst, tnkp, tnfr⟩
    have hcands := triangulate_cands_sub tk inp.tri _ _ htr
    have hmoves := triangulate_moves tk inp.tri _ _ htr
    have htksub : ∀ k ∈ tk,
        k ∈ mapIds s.map2d ∨ (s.nextKpId ≤ k ∧ k < s.nextKpId + inp.nDetect) := by
      intro k hk
      exact (@detect_mem_map2d s inp.nDetect nf k).mp (hcands k hk)
    refine ⟨by rw [tinit]; rfl, by rw [tkf]; rfl, by rw [tlf]; rfl, by rw [tlst]; rfl,
      by rw [tnfr]; rfl, by rw [tnkp]; rfl,
      by rw [hnf]; exact hdet2.1, by rw [hnf]; exact hdet2.2.1,
      by rw [hnf]; exact hdet2.2.2.1, by rw [hnf]; exact hdet2.2.2.2.1,
      by rw [hnf]; exact hdet2.2.2.2.2, by rw [hnf]; exact hkpslen, ?_, ?_, htksub, hmoves, ?_⟩
    · intro k hk
      have := triangulate_map2d_sub tk inp.tri _ _ htr k hk
      exact (@detect_mem_map2d s inp.nDetect nf k).mp this
    · intro k hk
      rcases triangulate_map3d_of tk inp.tri _ _ htr k hk with hm | hm
      · exact Or.inl hm
      · rcases htksub k hm with h1 | h1
        · exact Or.inr (Or.inl h1)
        · exact Or.inr (Or.inr h1)
    · intro hb hd
      refine triangulate_disjoint htr ?_
      intro k hk2 hk3
      have h2 := (@detect_mem_map2d s inp.nDetect nf k).mp hk2
      rcases h2 with h2 | h2
      · exact hd k h2 hk3
      · exact absurd (hb k hk3) (by omega)

/-! ### `initTracking` -/

theorem initTracking_spec {cfg : Config} {s : VOState} {nf : Frame} {inp : Inp}
    {s' : VOState} {tk : List ℕ} (h : initTracking cfg s nf inp = some (s', tk)) :
    (s'.initialized = true ↔ DEF_MIN_INLIERS * 2 < s'.map2d.length) ∧
    s'.keyframes.length = 1 ∧
    s'.nextFrameId = s.nextFrameId ∧
    s.nextKpId ≤ s'.nextKpId ∧
    (∀ k ∈ mapIds s'.map2d, s.nextKpId ≤ k ∧ k < s'.nextKpId) ∧
    (∀ k ∈ mapIds s'.map3d, s.nextKpId ≤ k ∧ k < s'.nextKpId) ∧
    MapsDisjoint s' ∧
    (s'.initialized = true →
      s'.last_success_time = some nf.time ∧
      ∃ lf, s'.last_frame = some lf ∧ lf.post = some lf.prior ∧
        (lf.kps ≠ [] → ∃ rf, s'.keyframes.getLast? = some rf ∧ 0 < rf.ini_kp_count)) ∧
    (s'.initialized = false → s'.last_frame = none) ∧
    (∀ k ∈ tk, s.nextKpId ≤ k) ∧
    (∀ k ∈ tk, k ∉ mapIds s'.map2d ∧ k ∈ mapIds s'.map3d) := by
  unfold initTracking at h
  simp only [] at h
  split at h
  · cases h
  · rename_i s1 nf2 tk0 heq
    rcases add_facts heq with ⟨ainit, akf, alf, alst, anfr, ankp, ffid, ftime, fpost, fprior,
      fini, fkl, m2, m3, tks, tkm, hdisj⟩
    have hkf1 : s1.keyframes = [nf2] := akf
    have hdisj1 : MapsDisjoint s1 := by
      refine hdisj ?_ ?_
      · intro k hk
        cases hk
      · intro k hk
        cases hk
    have hm2b : ∀ k ∈ mapIds s1.map2d, s.nextKpId ≤ k ∧ k < s1.nextKpId := by
      intro k hk
      rcases m2 k hk with h1 | h1
      · cases h1
      · rw [ankp]
        exact h1
    have hm3b : ∀ k ∈ mapIds s1.map3d, s.nextKpId ≤ k ∧ k < s1.nextKpId := by
      intro k hk
      rcases m3 k hk with h1 | h1 | h1
      · cases h1
      · cases h1
      · rw [ankp]
        exact h1
    have hini : nf2.ini_kp_count = nf2.kps.length := by
      rw [fini, fkl]
    have hpost2 : nf2.post = some nf2.prior := by
      rw [fpost, fprior]
    have htime2 : nf2.time = nf.time := ftime
    have htk0 : ∀ k ∈ tk0, s.nextKpId ≤ k := by
      intro k hk
      rcases tks k hk with h1 | h1
      · cases h1
      · exact h1.1
    split at h
    next hth =>
      cases h
      refine ⟨by constructor <;> intro <;> [exact hth; rfl], by simp [hkf1], anfr,
        by rw [ankp]; show s.nextKpId ≤ s.nextKpId + inp.nDetect; omega,
        hm2b, hm3b, hdisj1, ?_, ?_, htk0, tkm⟩
      · intro _
        refine ⟨by rw [htime2], nf2, rfl, hpost2, ?_⟩
        intro hne
        refine ⟨nf2, by simp [hkf1], ?_⟩
        rw [hini]
        exact List.length_pos.mpr hne
      · intro hc
        cases hc
    next hth =>
      cases h
      refine ⟨?_, by simp [hkf1], anfr,
        by rw [ankp]; show s.nextKpId ≤ s.nextKpId + inp.nDetect; omega,
        hm2b, hm3b, hdisj1, ?_, ?_, htk0, tkm⟩
      · constructor
        · intro hc
          rw [ainit] at hc
          cases hc
        · intro hc
          exact absurd hc hth
      · intro hc
        rw [ainit] at hc
        cases hc
      · intro _
        rw [alf]

/-! ### `maintain_map` -/

theorem getLast_field_eq {α : Type} (f : Frame → α) {l1 l2 : List Frame}
    (h : l1.map f = l2.map f) {rf : Frame} (h2 : l2.getLast? = some rf) :
    ∃ rf', l1.getLast? = some rf' ∧ f rf' = f rf := by
  have hh := congrArg List.getLast? h
  rw [getLast?_map, getLast?_map, h2] at hh
  cases hl : l1.getLast? with
  | none => rw [hl] at hh; cases hh
  | some rf' =>
    rw [hl] at hh
    exact ⟨rf', rfl, by simpa using hh⟩

theorem getLast_two_fields {l1 l2 : List Frame}
    (hini : l1.map Frame.ini_kp_count = l2.map Frame.ini_kp_count)
    (hkps : l1.map Frame.kps = l2.map Frame.kps)
    {rf : Frame} (h2 : l2.getLast? = some rf) :
    ∃ rf', l1.getLast? = some rf' ∧
      rf'.ini_kp_count = rf.ini_kp_count ∧ rf'.kps = rf.kps := by
  rcases getLast_field_eq Frame.ini_kp_count hini h2 with ⟨rf', hl, he⟩
  rcases getLast_field_eq Frame.kps hkps h2 with ⟨rf2, hl2, he2⟩
  rw [hl] at hl2
  cases hl2
  exact ⟨rf', hl, he, he2⟩

theorem pyLastN_map {α β : Type} (f : α → β) (n : ℕ) (l : List α) :
    pyLastN n (l.map f) = (pyLastN n l).map f := by
  by_cases hn : n = 0
  · simp [pyLastN, hn]
  · simp only [pyLastN, if_neg hn, List.length_map]
    exact (List.map_drop f l (l.length - n)).symm

theorem foldDel_kf_fields (l : List ℕ) (s : VOState) :
    (List.foldl (fun st kid => del_keypoint kid st) s l).keyframes.map Frame.fid =
      s.keyframes.map Frame.fid ∧
    (List.foldl (fun st kid => del_keypoint kid st) s l).keyframes.map Frame.ini_kp_count =
      s.keyframes.map Frame.ini_kp_count := by
  rcases foldDel_keyframes l s with ⟨g, hg, hgp⟩
  rw [hg]
  constructor
  · rw [List.map_map]
    exact List.map_congr_left fun f _ => (hgp f).1
  · rw [List.map_map]
    exact List.map_congr_left fun f _ => (hgp f).2.1

theorem maintain_spec {cfg : Config} {s : VOState} {inp : Inp} {s' : VOState}
    (h : maintain_map cfg s inp = some s') :
    s'.initialized = s.initialized ∧
    s'.nextKpId = s.nextKpId ∧
    s'.nextFrameId = s.nextFrameId ∧
    (∀ k ∈ mapIds s'.map2d, k ∈ mapIds s.map2d) ∧
    (∀ k ∈ mapIds s'.map3d, k ∈ mapIds s.map3d) ∧
    (MapsDisjoint s → MapsDisjoint s') ∧
    (s.keyframes ≠ [] → s'.keyframes ≠ []) ∧
    (∀ rf, s.keyframes ≠ [] → s.keyframes.getLast? = some rf →
      ∃ rf', s'.keyframes.getLast? = some rf' ∧ rf'.ini_kp_count = rf.ini_kp_count ∧
        (∀ k ∈ rf'.kps, k ∈ rf.kps) ∧
        (rf.post.isSome = true → rf'.post.isSome = true)) ∧
    s'.keyframes.map Frame.fid =
      (if cfg.max_keyframes < s.keyframes.length then
        pyLastN cfg.max_keyframes (s.keyframes.map Frame.fid)
       else s.keyframes.map Frame.fid) := by
  unfold maintain_map at h
  simp only [] at h
  generalize hT : (if cfg.max_keyframes < s.keyframes.length then prune_keyframes cfg s
    else s) = t at h
  have ht2 : t.map2d = s.map2d := by rw [← hT]; split <;> rfl
  have ht3 : t.map3d = s.map3d := by rw [← hT]; split <;> rfl
  have htin : t.initialized = s.initialized := by rw [← hT]; split <;> rfl
  have htkp : t.nextKpId = s.nextKpId := by rw [← hT]; split <;> rfl
  have htfr : t.nextFrameId = s.nextFrameId := by rw [← hT]; split <;> rfl
  have htkf : s.keyframes ≠ [] → t.keyframes ≠ [] := by
    rw [← hT]
    split
    · exact fun hne => pyLastN_ne_nil _ hne
    · exact id
  have htgl : s.keyframes ≠ [] → t.keyframes.getLast? = s.keyframes.getLast? := by
    rw [← hT]
    split
    · exact fun hne => pyLastN_getLast? _ hne
    · intro _
      rfl
  have htfid : t.keyframes.map Frame.fid =
      (if cfg.max_keyframes < s.keyframes.length then
        pyLastN cfg.max_keyframes (s.keyframes.map Frame.fid)
       else s.keyframes.map Frame.fid) := by
    rw [← hT]
    split
    · show (pyLastN cfg.max_keyframes s.keyframes).map Frame.fid = _
      rw [pyLastN_map]
    · rfl
  -- 3-D pruning stage
  have hmain : ∀ s2 : VOState,
      (if cfg.use_ba = true ∧ 0 < s2.map3d.length ∧
          cfg.max_ba_keyframes ≤ s2.keyframes.length then
        bundle_adjustment cfg s2 inp else some s2) = some s' →
      s'.initialized = s2.initialized ∧ s'.nextKpId = s2.nextKpId ∧
      s'.nextFrameId = s2.nextFrameId ∧
      (∀ k ∈ mapIds s'.map2d, k ∈ mapIds s2.map2d) ∧
      (∀ k ∈ mapIds s'.map3d, k ∈ mapIds s2.map3d) ∧
      (MapsDisjoint s2 → MapsDisjoint s') ∧
      (s2.keyframes ≠ [] → s'.keyframes ≠ []) ∧
      (∀ rf, s2.keyframes.getLast? = some rf →
        ∃ rf', s'.keyframes.getLast? = some rf' ∧ rf'.ini_kp_count = rf.ini_kp_count ∧
          (∀ k ∈ rf'.kps, k ∈ rf.kps) ∧
          (rf.post.isSome = true → rf'.post.isSome = true)) ∧
      s'.keyframes.map Frame.fid = s2.keyframes.map Frame.fid := by
    intro s2 hba
    split at hba
    · rcases bundle_adjustment_spec hba with
        ⟨b3, b2, binit, bkp, bfr, blf, blst, bfid, bini, bkps, bpost⟩
      refine ⟨binit, bkp, bfr, by rw [b2]; exact fun k hk => hk,
        by rw [b3]; exact fun k hk => hk, ?_, ?_, ?_, bfid⟩
      · intro hd k hk2 hk3
        rw [b2] at hk2
        rw [b3] at hk3
        exact hd k hk2 hk3
      · intro hne hc
        have := congrArg List.length bfid
        simp at this
        rw [hc] at this
        simp at this
        exact hne (List.length_eq_zero.mp this.symm)
      · intro rf hrf
        rcases getLast_two_fields bini bkps hrf with ⟨rf', hl, he1, he2⟩
        refine ⟨rf', hl, he1, by rw [he2]; exact fun k hk => hk, ?_⟩
        intro hps
        rcases bpost rf hrf hps with ⟨rf2, hl2, hps2⟩
        rw [hl] at hl2
        cases hl2
        exact hps2
    · cases hba
      exact ⟨rfl, rfl, rfl, fun k hk => hk, fun k hk => hk, fun hd => hd, fun hne => hne,
        fun rf hrf => ⟨rf, hrf, rfl, fun k hk => hk, fun hps => hps⟩, rfl⟩
  split at h
  · cases h
  · rename_i s2 heq2
    rcases hmain s2 h with ⟨m1, m2, m3, m4, m5, m6, m7, m8, m9⟩
    split at heq2
    · -- 3-D path: prune_map3d ran
      rcases prune_map3d_spec heq2 with ⟨rem, hs2, hrem⟩
      subst hs2
      rcases foldDel_frozen rem t with ⟨d1, d2, d3, d4⟩
      rcases foldDel_keyframes rem t with ⟨g, hg, hgp⟩
      refine ⟨by rw [m1, d1, htin], by rw [m2, d2, htkp], by rw [m3, d3, htfr],
        ?_, ?_, ?_, ?_, ?_, ?_⟩
      · intro k hk
        have := m4 k hk
        rw [← ht2]
        exact ((foldDel_mem_map2d rem t k).mp this).1
      · intro k hk
        have := m5 k hk
        rw [← ht3]
        exact ((foldDel_mem_map3d rem t k).mp this).1
      · intro hd
        refine m6 ?_
        intro k hk2 hk3
        have h2 := ((foldDel_mem_map2d rem t k).mp hk2).1
        have h3 := ((foldDel_mem_map3d rem t k).mp hk3).1
        rw [ht2] at h2
        rw [ht3] at h3
        exact hd k h2 h3
      · intro hne
        refine m7 ?_
        rw [hg]
        intro hc
        exact htkf hne (List.map_eq_nil_iff.mp hc)
      · intro rf hne hrf
        have hgl : (List.foldl (fun st kid => del_keypoint kid st) t rem).keyframes.getLast? =
            some (g rf) := by
          rw [hg, getLast?_map, htgl hne, hrf]
          rfl
        rcases m8 (g rf) hgl with ⟨rf', hl, he1, he2, he3⟩
        refine ⟨rf', hl, by rw [he1, (hgp rf).2.1], ?_, ?_⟩
        · intro k hk
          exact (hgp rf).2.2.2.2 k (he2 k hk)
        · intro hps
          refine he3 ?_
          rw [(hgp rf).2.2.2.1]
          exact hps
      · rw [m9, hg, List.map_map,
          show List.map (Frame.fid ∘ g) t.keyframes = List.map Frame.fid t.keyframes from
            List.map_congr_left fun f _ => (hgp f).1, htfid]
    · -- 2-D-only path: no 3-D pruning
      cases heq2
      refine ⟨by rw [m1, htin], by rw [m2, htkp], by rw [m3, htfr], ?_, ?_, ?_, ?_, ?_, ?_⟩
      · intro k hk
        rw [← ht2]
        exact m4 k hk
      · intro k hk
        rw [← ht3]
        exact m5 k hk
      · intro hd
        refine m6 ?_
        intro k hk2 hk3
        rw [ht2] at hk2
        rw [ht3] at hk3
        exact hd k hk2 hk3
      · exact fun hne => m7 (htkf hne)
      · intro rf hne hrf
        have hge := htgl hne
        rw [hrf] at hge
        exact m8 rf hge
      · rw [m9, htfid]

/-! ### Decomposition of `process` -/

theorem process_uninit {cfg : Config} {s : VOState} {inp : Inp} {out : POut}
    (hs : s.initialized = false) (h : process cfg s inp = some out) :
    ∃ s1 tk, initTracking cfg (initFrame s inp).1 (initFrame s inp).2 inp = some (s1, tk) ∧
      out = ⟨s1, none, false, false, tk, tk⟩ := by
  unfold process at h
  rw [if_pos hs] at h
  simp only [] at h
  split at h
  · cases h
  · rename_i s1 tk heq
    cases h
    exact ⟨s1, tk, heq, rfl⟩

theorem process_tracking {cfg : Config} {s : VOState} {inp : Inp} {out : POut}
    (hs : s.initialized = true) (h : process cfg s inp = some out) :
    ∃ s2 nf2, trackingStage cfg s inp = some (s2, nf2) ∧
    ∃ s3,
      ((∃ t0, nf2.post = none ∧ s2.last_success_time = some t0 ∧
         s3 = (if nf2.kps.length < 2 * cfg.min_inliers then
                { (if 1 < s2.keyframes.length ∧ cfg.reset_timeout < inp.time - t0
                   then { s2 with initialized := false } else s2) with initialized := false }
               else (if 1 < s2.keyframes.length ∧ cfg.reset_timeout < inp.time - t0
                     then { s2 with initialized := false } else s2))) ∨
       ((∃ p, nf2.post = some p) ∧ s3 = s2)) ∧
      ∃ knf cache, is_new_keyframe cfg s3 nf2 inp = some (knf, cache) ∧
        ((knf = false ∧
           out = ⟨{ s3 with last_frame := some nf2 }, nf2.post, false, false,
                  cache.getD [], []⟩) ∨
         (knf = true ∧ ∃ s4 nf3 tk,
           add_new_keyframe cfg s3 nf2 inp cache = some (s4, nf3, tk) ∧
           ∃ mt, is_maintenance_time cfg s4 = some mt ∧
             ((mt = false ∧
               out = ⟨{ s4 with last_frame := some nf3 }, nf3.post, true, false,
                      cache.getD [] ++ tk, tk⟩) ∨
              (mt = true ∧ ∃ s5 nf4, maintain_map cfg s4 inp = some s5 ∧
                s5.keyframes.getLast? = some nf4 ∧
                out = ⟨{ s5 with last_frame := some nf4 }, nf4.post, true, true,
                       cache.getD [] ++ tk, tk⟩)))) := by
  unfold process at h
  rw [if_neg (by simp [hs])] at h
  split at h
  · cases h
  · rename_i s2 nf2 hts
    refine ⟨s2, nf2, hts, ?_⟩
    split at h
    · cases h
    · rename_i s3 hrec
      refine ⟨s3, ?_, ?_⟩
      · -- characterize the recovery step
        split at hrec
        · rename_i p hp
          cases hrec
          exact Or.inr ⟨⟨p, hp⟩, rfl⟩
        · rename_i hp
          split at hrec
          · cases hrec
          · rename_i t0 ht0
            simp only [] at hrec
            cases hrec
            exact Or.inl ⟨t0, hp, ht0, rfl⟩
      · split at h
        · cases h
        · rename_i knf cache hknf
          refine ⟨knf, cache, hknf, ?_⟩
          by_cases hk : knf = true
          · subst hk
            rw [if_pos rfl] at h
            split at h
            · cases h
            · rename_i s4 nf3 tk hadd
              refine Or.inr ⟨rfl, s4, nf3, tk, hadd, ?_⟩
              split at h
              · cases h
              · rename_i mt hmt
                refine ⟨mt, hmt, ?_⟩
                by_cases hm : mt = true
                · subst hm
                  rw [if_pos rfl] at h
                  split at h
                  · cases h
                  · rename_i s5 hmm
                    split at h
                    · cases h
                    · rename_i nf4 hgl
                      cases h
                      exact Or.inr ⟨rfl, s5, nf4, hmm, hgl, rfl⟩
                · rw [if_neg hm] at h
                  cases h
                  rw [Bool.not_eq_true] at hm
                  exact Or.inl ⟨hm, rfl⟩
          · rw [if_neg hk] at h
            cases h
            rw [Bool.not_eq_true] at hk
            exact Or.inl ⟨hk, rfl⟩

/-! ### The reachability invariant -/

theorem process_inv {cfg : Config} {s : VOState} {inp : Inp} {out : POut}
    (hInv : Inv s) (h : process cfg s inp = some out) : Inv out.st := by
  rcases hInv with ⟨⟨hb2, hb3⟩, hd, hk⟩
  by_cases hs : s.initialized = false
  · rcases process_uninit hs h with ⟨s1, tk, heq, hout⟩
    subst hout
    rcases initTracking_spec heq with ⟨hiff, hlen1, hnfr, hnkp, hm2, hm3, hdisj, hsucc, hfail⟩
    refine ⟨⟨?_, ?_⟩, hdisj, ?_⟩
    · intro k hk2
      exact (hm2 k hk2).2
    · intro k hk3
      exact (hm3 k hk3).2
    · intro hinit
      rcases hsucc hinit with ⟨hlst, lf, hlf, hpost, hkcl⟩
      refine ⟨?_, lf, hlf, hkcl⟩
      intro hc
      rw [hc] at hlen1
      cases hlen1
  · rw [Bool.not_eq_false] at hs
    rcases process_tracking hs h with ⟨s2, nf2, hts, s3, hrec, knf, cache, hknf, hrest⟩
    rcases trackingStage_spec hts with ⟨tinit, tnkp, tnfr, tm2, tm3, tdisj, tent, tlen, tgl,
      tfid, ttime, tprior, tkps, tlposn, tlposs⟩
    have h3eq : s3.map2d = s2.map2d ∧ s3.map3d = s2.map3d ∧ s3.nextKpId = s2.nextKpId ∧
        s3.keyframes = s2.keyframes ∧ (s3.initialized = true → s2.initialized = true) := by
      rcases hrec with ⟨t0, _, _, hs3⟩ | ⟨_, hs3⟩
      · subst hs3
        refine ⟨by split <;> split <;> rfl, by split <;> split <;> rfl,
          by split <;> split <;> rfl, by split <;> split <;> rfl, ?_⟩
        intro hin
        split at hin
        · cases hin
        · split at hin
          · cases hin
          · exact hin
      · subst hs3
        exact ⟨rfl, rfl, rfl, rfl, fun hin => hin⟩
    rcases h3eq with ⟨e2, e3, ekp, ekf, einit⟩
    have hb2' : ∀ k ∈ mapIds s3.map2d, k < s3.nextKpId := by
      intro k hk2
      rw [e2] at hk2
      rw [ekp, tnkp]
      exact hb2 k (tm2 k hk2)
    have hb3' : ∀ k ∈ mapIds s3.map3d, k < s3.nextKpId := by
      intro k hk3
      rw [e3] at hk3
      rw [ekp, tnkp]
      exact hb3 k (tm3 k hk3)
    have hd' : MapsDisjoint s3 := by
      intro k hk2 hk3
      rw [e2] at hk2
      rw [e3] at hk3
      exact tdisj hd k hk2 hk3
    -- the reference-count argument: a tracked frame with surviving points
    -- implies a reference keyframe with positive initial count
    have hkref : nf2.kps ≠ [] → s.initialized = true →
        ∃ rf, s2.keyframes.getLast? = some rf ∧ 0 < rf.ini_kp_count := by
      intro hne hin
      rcases hk hin with ⟨hkne, lf0, hlf0, hcl⟩
      have htre : trackedKps s inp = lf0.kps.filter (fun kid => inp.surv kid) := by
        unfold trackedKps
        rw [hlf0]
      have hlkne : lf0.kps ≠ [] := by
        intro hc
        rw [tkps, htre, hc] at hne
        simp at hne
      rcases hcl hlkne with ⟨rf0, hrf0, hrf0pos⟩
      rcases tgl rf0 hrf0 with ⟨rf', hrf', hrfe⟩
      exact ⟨rf', hrf', by rw [hrfe]; exact hrf0pos⟩
    rcases hrest with ⟨hkf, hout⟩ | ⟨hkt, s4, nf3, tk, hadd, mt, hmt, hrest2⟩
    · -- frame rejected as keyframe
      subst hout
      refine ⟨⟨hb2', hb3'⟩, hd', ?_⟩
      intro hin
      have hin2 := einit hin
      have hin0 : s.initialized = true := by
        rw [← tinit]
        exact hin2
      refine ⟨?_, nf2, rfl, ?_⟩
      · show s3.keyframes ≠ []
        rw [ekf]
        intro hc
        rcases hk hin0 with ⟨hkne, _⟩
        have := tlen
        rw [hc] at this
        exact hkne (List.length_eq_zero.mp this.symm)
      · intro hne
        rcases hkref hne hin0 with ⟨rf, hrf, hpos⟩
        refine ⟨rf, ?_, hpos⟩
        show s3.keyframes.getLast? = some rf
        rw [ekf]
        exact hrf
    · -- frame accepted as keyframe
      rcases add_facts hadd with ⟨ainit, akf, alf, alst, anfr, ankp, ffid, ftime, fpost,
        fprior, fini, fkl, am2, am3, atks, atkm, adisj⟩
      have hb2_4 : ∀ k ∈ mapIds s4.map2d, k < s4.nextKpId := by
        intro k hk2
        rw [ankp]
        rcases am2 k hk2 with h1 | h1
        · have := hb2' k h1
          omega
        · omega
      have hb3_4 : ∀ k ∈ mapIds s4.map3d, k < s4.nextKpId := by
        intro k hk3
        rw [ankp]
        rcases am3 k hk3 with h1 | h1 | h1
        · have := hb3' k h1
          omega
        · have := hb2' k h1
          omega
        · omega
      have hd4 : MapsDisjoint s4 := adisj hb3' hd'
      have hkfne4 : s4.keyframes ≠ [] := by
        rw [akf]
        intro hc
        cases List.append_ne_nil_of_right_ne_nil s3.keyframes (by simp) hc
      have hgl4 : s4.keyframes.getLast? = some nf3 := by
        rw [akf]
        exact List.getLast?_concat _
      have hini3 : nf3.ini_kp_count = nf3.kps.length := by
        rw [fini, fkl]
      rcases hrest2 with ⟨hmtf, hout⟩ | ⟨hmtt, s5, nf4, hmm, hgl5, hout⟩
      · subst hout
        refine ⟨⟨hb2_4, hb3_4⟩, hd4, ?_⟩
        intro hin
        refine ⟨hkfne4, nf3, rfl, ?_⟩
        intro hne
        refine ⟨nf3, hgl4, ?_⟩
        rw [hini3]
        exact List.length_pos.mpr hne
      · subst hout
        rcases maintain_spec hmm with ⟨m1, m2, m3, m4, m5, m6, m7, m8, m9⟩
        refine ⟨⟨?_, ?_⟩, m6 hd4, ?_⟩
        · intro k hk2
          rw [m2]
          exact hb2_4 k (m4 k hk2)
        · intro k hk3
          rw [m2]
          exact hb3_4 k (m5 k hk3)
        · intro hin
          refine ⟨m7 hkfne4, nf4, rfl, ?_⟩
          intro hne
          rcases m8 nf3 hkfne4 hgl4 with ⟨rf', hrf', hie, hksub, hpm⟩
          rw [hgl5] at hrf'
          cases hrf'
          refine ⟨nf4, hgl5, ?_⟩
          rw [hie, hini3]
          rcases List.exists_mem_of_ne_nil _ hne with ⟨k0, hk0⟩
          have := hksub k0 hk0
          exact List.length_pos.mpr (by intro hc; rw [hc] at this; cases this)

theorem initState_inv : Inv initState := by
  refine ⟨⟨?_, ?_⟩, ?_, ?_⟩
  · intro k hk
    cases hk
  · intro k hk
    cases hk
  · intro k hk
    cases hk
  · intro hc
    cases hc

theorem reach_inv {cfg : Config} {s : VOState} (h : Reach cfg s) : Inv s := by
  induction h with
  | init => exact initState_inv
  | step hr hp ih => exact process_inv ih hp

/-! ### Ids gone from `map2d` never return, and are never selected again -/

theorem stableGone_step {cfg : Config} {s : VOState} {inp : Inp} {out : POut} {kid : ℕ}
    (hsg : StableGone kid s) (h : process cfg s inp = some out) :
    StableGone kid out.st ∧ kid ∉ out.selected := by
  rcases hsg with ⟨hlt, hnm⟩
  by_cases hs : s.initialized = false
  · rcases process_uninit hs h with ⟨s1, tk, heq, hout⟩
    subst hout
    rcases initTracking_spec heq with ⟨_, _, _, hnkp, hm2, _, _, _, _, htks, _⟩
    have hfr : (initFrame s inp).1.nextKpId = s.nextKpId := rfl
    rw [hfr] at hnkp
    refine ⟨⟨by show kid < s1.nextKpId; omega, ?_⟩, ?_⟩
    · intro hc
      have h1 := (hm2 kid hc).1
      rw [hfr] at h1
      omega
    · intro hc
      have h1 := htks kid hc
      rw [hfr] at h1
      omega
  · rw [Bool.not_eq_false] at hs
    rcases process_tracking hs h with ⟨s2, nf2, hts, s3, hrec, knf, cache, hknf, hrest⟩
    rcases trackingStage_spec hts with ⟨tinit, tnkp, tnfr, tm2, tm3, tdisj, tent, tlen, tgl,
      tfid, ttime, tprior, tkps, tlposn, tlposs⟩
    have h3eq : s3.map2d = s2.map2d ∧ s3.nextKpId = s2.nextKpId := by
      rcases hrec with ⟨t0, _, _, hs3⟩ | ⟨_, hs3⟩
      · subst hs3
        exact ⟨by split <;> split <;> rfl, by split <;> split <;> rfl⟩
      · subst hs3
        exact ⟨rfl, rfl⟩
    rcases h3eq with ⟨e2, ekp⟩
    have hn3 : kid ∉ mapIds s3.map2d := by
      rw [e2]
      intro hc
      exact hnm (tm2 kid hc)
    have hlt3 : kid < s3.nextKpId := by
      rw [ekp, tnkp]
      exact hlt
    have hcache : ∀ c, cache = some c → kid ∉ c := by
      intro c hc hkc
      rw [hc] at hknf
      have := triangulation_kps_sub (is_new_keyframe_cache hknf) kid hkc
      exact hn3 this
    rcases hrest with ⟨hkf, hout⟩ | ⟨hkt, s4, nf3, tk, hadd, mt, hmt, hrest2⟩
    · subst hout
      refine ⟨⟨hlt3, hn3⟩, ?_⟩
      intro hc
      cases hcg : cache with
      | none => rw [hcg] at hc; cases hc
      | some c =>
        rw [hcg] at hc
        exact hcache c hcg (by simpa using hc)
    · rcases add_facts hadd with ⟨_, _, _, _, _, ankp, _, _, _, _, _, _, am2, _, atks, _, _⟩
      have hn4 : kid ∉ mapIds s4.map2d := by
        intro hc
        rcases am2 kid hc with h1 | h1
        · exact hn3 h1
        · omega
      have hlt4 : kid < s4.nextKpId := by
        rw [ankp]
        omega
      have htk4 : kid ∉ tk := by
        intro hc
        rcases atks kid hc with h1 | h1
        · exact hn3 h1
        · omega
      have hsel : kid ∉ cache.getD [] ++ tk := by
        intro hc
        rcases List.mem_append.mp hc with h1 | h1
        · cases hcg : cache with
          | none => rw [hcg] at h1; cases h1
          | some c =>
            rw [hcg] at h1
            exact hcache c hcg h1
        · exact htk4 h1
      rcases hrest2 with ⟨hmtf, hout⟩ | ⟨hmtt, s5, nf4, hmm, hgl5, hout⟩
      · subst hout
        exact ⟨⟨hlt4, hn4⟩, hsel⟩
      · subst hout
        rcases maintain_spec hmm with ⟨m1, m2, m3, m4, m5, m6, m7, m8, m9⟩
        refine ⟨⟨by show kid < s5.nextKpId; rw [m2]; exact hlt4, ?_⟩, hsel⟩
        intro hc
        exact hn4 (m4 kid hc)

theorem stableGone_steps {cfg : Config} {s t : VOState} {kid : ℕ}
    (hsg : StableGone kid s) (h : Steps cfg s t) : StableGone kid t := by
  induction h with
  | refl => exact hsg
  | tail hst hp ih => exact (stableGone_step ih hp).1

/-! ### Further helper lemmas for the claims -/

theorem is_maintenance_time_spec {cfg : Config} {s : VOState} {mt : Bool}
    (h : is_maintenance_time cfg s = some mt) :
    cfg.ba_interval ≠ 0 ∧ ∃ f, s.keyframes.getLast? = some f ∧
      (mt = true ↔ f.fid % cfg.ba_interval = 0) := by
  unfold is_maintenance_time at h
  split at h
  · cases h
  · rename_i f hf
    split at h
    · cases h
    · rename_i hne
      cases h
      exact ⟨hne, f, hf, by simp⟩

theorem pyLastN_length {α : Type} (n : ℕ) (l : List α) :
    (pyLastN n l).length = if n = 0 then l.length else l.length - (l.length - n) := by
  by_cases hn : n = 0
  · rw [if_pos hn]
    unfold pyLastN
    rw [if_pos hn]
  · rw [if_neg hn]
    unfold pyLastN
    rw [if_neg hn, List.length_drop]

theorem map_eq_imp_mem {α β : Type} (f : α → β) {l1 l2 : List α} (h : l1.map f = l2.map f) :
    ∀ x ∈ l1, ∃ y ∈ l2, f x = f y := by
  intro x hx
  have hm : f x ∈ l2.map f := by
    rw [← h]
    exact List.mem_map_of_mem f hx
  rcases List.mem_map.mp hm with ⟨y, hy, hxy⟩
  exact ⟨y, hy, hxy.symm⟩

theorem delKp_not_mem (kid : ℕ) (f : Frame) : kid ∉ (Frame.delKp kid f).kps := by
  intro hc
  have := (List.mem_filter.mp hc).2
  simp at this

theorem foldDel_kps_gone (l : List ℕ) (kid : ℕ) :
    ∀ s : VOState, kid ∈ l →
      ∀ f ∈ (List.foldl (fun st kid => del_keypoint kid st) s l).keyframes, kid ∉ f.kps := by
  induction l with
  | nil =>
    intro s hk
    cases hk
  | cons a t ih =>
    intro s hk f hf hmem
    rw [List.foldl_cons] at hf
    rcases List.mem_cons.mp hk with rfl | hm
    · rcases foldDel_keyframes t (del_keypoint kid s) with ⟨g, hg, hgp⟩
      rw [hg] at hf
      rcases List.mem_map.mp hf with ⟨f1, hf1, hgf⟩
      rcases List.mem_map.mp (show f1 ∈ s.keyframes.map (Frame.delKp kid) from hf1) with
        ⟨f0, _, hdel⟩
      have hmem1 : kid ∈ f1.kps := (hgp f1).2.2.2.2 kid (by rw [hgf]; exact hmem)
      rw [← hdel] at hmem1
      exact delKp_not_mem kid f0 hmem1
    · exact ih (del_keypoint a s) hm f hf hmem

theorem prune_map3d_isSome {cfg : Config} {s s' : VOState}
    (h : prune_map3d cfg s = some s') :
    ∀ p ∈ s.map3d, (removalPred cfg s.keyframes p.2).isSome = true := by
  intro p hp
  cases hrp : removalPred cfg s.keyframes p.2 with
  | none =>
    rw [prune_map3d_none hp hrp] at h
    cases h
  | some b => rfl

theorem removalPred_true_iff {cfg : Config} {kfs : List Frame} {kp : Keypoint} {b : Bool}
    (h : removalPred cfg kfs kp = some b) :
    b = true ↔ removalCond cfg kfs kp := by
  unfold removalPred at h
  unfold removalCond
  split at h
  · rename_i hlim
    split at h
    · cases h
    · rename_i hT0
      split at h
      · rename_i hr
        cases h
        exact ⟨fun _ => ⟨hlim, Or.inl hr⟩, fun _ => rfl⟩
      · rename_i hr
        split at h
        · rename_i ha
          split at h
          · cases h
          · rename_i t ht
            split at h
            · cases h
            · rename_i f hf
              cases h
              constructor
              · intro hb
                exact ⟨hlim, Or.inr ⟨ha, t, f, ht, hf, of_decide_eq_true hb⟩⟩
              · rintro ⟨_, hd⟩
                rcases hd with hr' | ⟨_, t', f', ht', hf', htf'⟩
                · exact absurd hr' hr
                · rw [ht] at ht'
                  injection ht' with he
                  subst he
                  rw [hf] at hf'
                  injection hf' with hfe
                  subst hfe
                  exact decide_eq_true htf'
        · rename_i ha
          cases h
          constructor
          · intro hc
            exact Bool.noConfusion hc
          · rintro ⟨_, hd⟩
            rcases hd with hr' | ⟨ha', _⟩
            · exact absurd hr' hr
            · exact absurd ha' ha
  · rename_i hlim
    cases h
    constructor
    · intro hc
      exact Bool.noConfusion hc
    · rintro ⟨h1, _⟩
      exact absurd h1 hlim

theorem triangulate_map3d_entry_mono (cands : List ℕ) (tri : ℕ → Vec3) :
    ∀ s s' : VOState, triangulate s cands tri = some s' → ∀ p ∈ s.map3d, p ∈ s'.map3d := by
  induction cands with
  | nil =>
    intro s s' h p hp
    rw [triangulate_nil] at h
    cases h
    exact hp
  | cons a t ih =>
    intro s s' h p hp
    cases hl : List.lookup a s.map2d with
    | none => rw [triangulate_cons_none hl] at h; cases h
    | some kp =>
      rw [triangulate_cons_some hl] at h
      exact ih _ _ h p (List.mem_append.mpr (Or.inl hp))

theorem triangulate_pt3d (cands : List ℕ) (tri : ℕ → Vec3) :
    ∀ s s' : VOState, triangulate s cands tri = some s' →
      ∀ k ∈ cands, ∃ kp, (k, kp) ∈ s'.map3d ∧ kp.pt3d = some (tri k) := by
  induction cands with
  | nil =>
    intro s s' _ k hk
    cases hk
  | cons a t ih =>
    intro s s' h k hk
    cases hl : List.lookup a s.map2d with
    | none => rw [triangulate_cons_none hl] at h; cases h
    | some kp =>
      rw [triangulate_cons_some hl] at h
      rcases List.mem_cons.mp hk with rfl | hm
      · refine ⟨{ kp with pt3d := some (tri k) }, ?_, rfl⟩
        refine triangulate_map3d_entry_mono t tri _ _ h _ ?_
        exact List.mem_append.mpr (Or.inr (by simp))
      · exact ih _ _ h k hm

/-! ### Reachability of the concrete run states -/

theorem reachA1 : Reach cfgA outA1.st :=
  @Reach.step cfgA initState inpA1 outA1 Reach.init (by rfl)

theorem reachA2 : Reach cfgA outA2.st :=
  @Reach.step cfgA outA1.st inpA2 outA2 reachA1 (by with_unfolding_all rfl)

theorem reachA2b : Reach cfgA outA2b.st :=
  @Reach.step cfgA outA1.st inpA2b outA2b reachA1 (by with_unfolding_all rfl)

theorem reachB3 : Reach cfgB outB3.st :=
  @Reach.step cfgB outB2.st inpB3 outB3
    (@Reach.step cfgB outB1.st inpB2 outB2
      (@Reach.step cfgB initState inpA1 outB1 Reach.init (by with_unfolding_all rfl)) (by with_unfolding_all rfl)) (by with_unfolding_all rfl)

theorem reachC2 : Reach cfgC outC2.st :=
  @Reach.step cfgC outC1.st inpC2 outC2
    (@Reach.step cfgC initState inpA1 outC1 Reach.init (by with_unfolding_all rfl)) (by with_unfolding_all rfl)

/-! ### Claims -/

theorem Vec3.add_sub_cancel (a b : Vec3) : a.add (b.sub a) = b := by
  cases a
  cases b
  simp [Vec3.add, Vec3.sub]

/-- C1: In every state reachable by any sequence of `process` calls, the
key sets of `map2d` and `map3d` are disjoint: detection inserts only
fresh ids into `map2d`, triangulation atomically pops an id from `map2d`
before inserting it into `map3d`, and deletion removes an id from both
maps. -/
theorem C1_maps_disjoint (cfg : Config) (s : VOState) (h : Reach cfg s) :
    ∀ kid, kid ∈ mapIds s.map2d → kid ∉ mapIds s.map3d :=
  (reach_inv h).2.1

/-- Witness for C1: in the reachable run-A state where keypoints 1-3 were
triangulated and 4-5 remain two-dimensional, id 4 (present in `map2d`)
is absent from `map3d`. -/
theorem C1_witness : 4 ∉ mapIds outA2b.st.map3d :=
  C1_maps_disjoint cfgA outA2b.st reachA2b 4 (by with_unfolding_all decide)

/-- C2 counterexample: for `pose.quat = i` and `pose2.quat = j`,
`compose(pose, pose2 - pose)` has orientation `i.conj * j * i = -j ≠ j`,
so the round trip does not return `pose2` (the difference uses
`pose.quat.conj() * self.quat` while composition multiplies the delta on
the left, so the orientation comes back conjugated by `pose.quat`). -/
theorem C2_roundtrip_counterexample :
    Pose.add cxPose (Pose.sub cxPose2 cxPose) ≠ cxPose2 := by
  with_unfolding_all decide

/-- C2 (amended): composing `pose` with the difference `pose2 - pose`
returns `pose2` exactly in the location and both uncertainty components,
but the orientation component comes back as
`pose.quat.conj * pose2.quat * pose.quat` — equal to `pose2.quat` only
when the two orientations commute, not in general. -/
theorem C2_roundtrip_amended (p p2 : Pose) :
    (Pose.add p (Pose.sub p2 p)).loc = p2.loc ∧
    (Pose.add p (Pose.sub p2 p)).loc_s2 = p2.loc_s2 ∧
    (Pose.add p (Pose.sub p2 p)).so3_s2 = p2.so3_s2 ∧
    (Pose.add p (Pose.sub p2 p)).quat = (p.quat.conj.mul p2.quat).mul p.quat :=
  ⟨Vec3.add_sub_cancel p.loc p2.loc, Vec3.add_sub_cancel p.loc_s2 p2.loc_s2,
   Vec3.add_sub_cancel p.so3_s2 p2.so3_s2, rfl⟩

/-- C9: every `process` call made while the engine is UNINITIALIZED
returns no pose result — including the call on which initialization
succeeds — even though that call sets the frame's posterior pose to the
prior; only a call starting in TRACKING can return a pose. -/
theorem C9_uninitialized_returns_none (cfg : Config) (s : VOState) (inp : Inp) (out : POut)
    (hs : s.initialized = false) (h : process cfg s inp = some out) :
    out.ret = none ∧ ∀ lf, out.st.last_frame = some lf → lf.post = some lf.prior := by
  rcases process_uninit hs h with ⟨s1, tk, heq, hout⟩
  subst hout
  rcases initTracking_spec heq with ⟨hiff, hlen1, _, _, _, _, _, hsucc, hfail, _⟩
  refine ⟨rfl, ?_⟩
  intro lf hlf
  by_cases hin : s1.initialized = true
  · rcases hsucc hin with ⟨_, lf2, hlf2, hpost, _⟩
    have : lf2 = lf := by
      rw [hlf] at hlf2
      cases hlf2
      rfl
    rw [← this]
    exact hpost
  · rw [Bool.not_eq_true] at hin
    rw [hfail hin] at hlf
    cases hlf

/-- Witness for C9: the successful initialization call of run A returns
no pose. -/
theorem C9_witness : outA1.ret = none :=
  (C9_uninitialized_returns_none cfgA initState inpA1 outA1 rfl (by rfl)).1

/-- C4 (amended): a `process` call made in the UNINITIALIZED state takes
the prior as posterior, adds the frame as the single keyframe and
transitions to TRACKING, recording the frame's time as the last success
time, if and only if the resulting `map2d` size exceeds twice the
`DEF_MIN_INLIERS` class constant (20) — the code reads
`self.DEF_MIN_INLIERS`, not the configured `min_inliers` value. -/
theorem C4_initialization_threshold (cfg : Config) (s : VOState) (inp : Inp) (out : POut)
    (hs : s.initialized = false) (h : process cfg s inp = some out) :
    (out.st.initialized = true ↔ DEF_MIN_INLIERS * 2 < out.st.map2d.length) ∧
    out.st.keyframes.length = 1 ∧
    (out.st.initialized = true → out.st.last_success_time = some inp.time) ∧
    out.ret = none := by
  rcases process_uninit hs h with ⟨s1, tk, heq, hout⟩
  subst hout
  rcases initTracking_spec heq with ⟨hiff, hlen1, _, _, _, _, _, hsucc, _, _⟩
  refine ⟨hiff, hlen1, ?_, rfl⟩
  intro hin
  rcases hsucc hin with ⟨hlst, _⟩
  exact hlst

/-- C4 counterexample: with `min_inliers` configured to 2, an
initialization call that detects 15 features yields a `map2d` larger
than twice the configured threshold, yet the engine stays UNINITIALIZED,
because the code compares against the class default of 20. -/
theorem C4_counterexample :
    process cfgA initState inpD = some outD1 ∧
    2 * cfgA.min_inliers < outD1.st.map2d.length ∧
    outD1.st.initialized = false := by
  refine ⟨by rfl, by decide, by decide⟩

/-- Witness for C4 (amended) at the successful run-A initialization. -/
theorem C4_witness :
    (outA1.st.initialized = true ↔ DEF_MIN_INLIERS * 2 < outA1.st.map2d.length) ∧
    outA1.st.keyframes.length = 1 ∧
    (outA1.st.initialized = true → outA1.st.last_success_time = some inpA1.time) ∧
    outA1.ret = none :=
  C4_initialization_threshold cfgA initState inpA1 outA1 rfl (by rfl)

/-- C3: for every TRACKING-state `process` call in which pose estimation
produces no posterior pose (and which completes without raising), the
engine transitions back to UNINITIALIZED exactly when (more than one
keyframe is retained AND the elapsed time since the last successful
estimate exceeds the reset timeout) OR fewer than twice the configured
minimum-inliers keypoints remain tracked in the new frame; otherwise
`initialized` stays true. -/
theorem C3_tracking_failure_reset (cfg : Config) (s : VOState) (inp : Inp) (out : POut)
    (s2 : VOState) (nf2 : Frame) (t0 : ℚ)
    (hs : s.initialized = true) (h : process cfg s inp = some out)
    (hts : trackingStage cfg s inp = some (s2, nf2)) (hpost : nf2.post = none)
    (ht0 : s.last_success_time = some t0) :
    out.st.initialized = false ↔
      ((1 < s.keyframes.length ∧ cfg.reset_timeout < inp.time - t0) ∨
        (trackedKps s inp).length < 2 * cfg.min_inliers) := by
  rcases process_tracking hs h with ⟨s2', nf2', hts', s3, hrec, knf, cache, hknf, hrest⟩
  rw [hts] at hts'
  injection hts' with hpair
  injection hpair with he1 he2
  subst he1
  subst he2
  rcases trackingStage_spec hts with ⟨tinit, _, _, _, _, _, _, tlen, _, _, _, _, tkps, tlposn, _⟩
  rcases hrec with ⟨t0', hp, ht0', hs3⟩ | ⟨⟨p, hp⟩, _⟩
  · have hlst : s.last_success_time = some t0' := by
      rw [← tlposn hpost]
      exact ht0'
    rw [ht0] at hlst
    have ht00 : t0' = t0 := (Option.some.inj hlst).symm
    rw [ht00] at hs3
    have hkc := is_new_keyframe_post_none hknf hpost
    injection hkc with hk1 hk2
    subst hk1
    rcases hrest with ⟨_, hout⟩ | ⟨hkt, _⟩
    · subst hout
      show s3.initialized = false ↔
        ((1 < s.keyframes.length ∧ cfg.reset_timeout < inp.time - t0) ∨
          (trackedKps s inp).length < 2 * cfg.min_inliers)
      subst hs3
      rw [tkps]
      by_cases hc1 : (trackedKps s inp).length < 2 * cfg.min_inliers
      · rw [if_pos hc1]
        exact ⟨fun _ => Or.inr hc1, fun _ => rfl⟩
      · rw [if_neg hc1]
        by_cases hc2 : 1 < s2.keyframes.length ∧ cfg.reset_timeout < inp.time - t0
        · rw [if_pos hc2]
          exact ⟨fun _ => Or.inl ⟨tlen ▸ hc2.1, hc2.2⟩, fun _ => rfl⟩
        · rw [if_neg hc2]
          constructor
          · intro hcon
            rw [tinit, hs] at hcon
            cases hcon
          · rintro (h1 | h1)
            · exact absurd ⟨by rw [tlen]; exact h1.1, h1.2⟩ hc2
            · exact absurd h1 hc1
    · cases hkt
  · rw [hpost] at hp
    cases hp

/-- Witness for C3: the failed-tracking call `inpT` from the run-A state
with two keyframes, 1999 seconds after the last success: the engine
resets to UNINITIALIZED, matching the right-hand side of the
characterization (the timeout disjunct holds). -/
theorem C3_witness :
    outT.st.initialized = false ↔
      ((1 < outA2.st.keyframes.length ∧ cfgA.reset_timeout < inpT.time - 1) ∨
        (trackedKps outA2.st inpT).length < 2 * cfgA.min_inliers) :=
  C3_tracking_failure_reset cfgA outA2.st inpT outT prT.1 prT.2 1
    (by with_unfolding_all rfl) (by with_unfolding_all rfl) (by with_unfolding_all rfl)
    (by with_unfolding_all rfl) (by with_unfolding_all rfl)

/-- C5 counterexample: in run B the fourth call accepts a new keyframe,
after which the retained-keyframe count (3) is a multiple of the
configured interval (3), yet maintenance does not run — the trigger
divides the last keyframe's frame id (here 4, counting every processed
frame), not the keyframe count. -/
theorem C5_counterexample :
    Reach cfgB outB3.st ∧
    process cfgB outB3.st inpB4 = some outB4 ∧
    outB4.acceptedKf = true ∧
    outB4.st.keyframes.length % cfgB.ba_interval = 0 ∧
    outB4.ranMaint = false :=
  ⟨reachB3, by with_unfolding_all rfl, by with_unfolding_all rfl,
   by with_unfolding_all decide, by with_unfolding_all rfl⟩

/-- C5 (amended): map maintenance runs on a `process` call exactly when
the call accepted a new keyframe AND the global frame-id counter value
assigned to the processed frame (`keyframes[-1].id` after the append) is
a multiple of the configured interval — the interval counts processed
frames via their ids, not retained keyframes. -/
theorem C5_maintenance_trigger (cfg : Config) (s : VOState) (inp : Inp) (out : POut)
    (h : process cfg s inp = some out) :
    out.ranMaint = true ↔
      (out.acceptedKf = true ∧ s.nextFrameId % cfg.ba_interval = 0) := by
  by_cases hs : s.initialized = false
  · rcases process_uninit hs h with ⟨s1, tk, heq, hout⟩
    subst hout
    show false = true ↔ (false = true ∧ s.nextFrameId % cfg.ba_interval = 0)
    simp
  · rw [Bool.not_eq_false] at hs
    rcases process_tracking hs h with ⟨s2, nf2, hts, s3, hrec, knf, cache, hknf, hrest⟩
    rcases trackingStage_spec hts with ⟨_, _, _, _, _, _, _, _, _, tfid, _, _, _, _, _⟩
    rcases hrest with ⟨hkf, hout⟩ | ⟨hkt, s4, nf3, tk, hadd, mt, hmt, hrest2⟩
    · subst hout
      show false = true ↔ (false = true ∧ s.nextFrameId % cfg.ba_interval = 0)
      simp
    · rcases add_facts hadd with ⟨_, akf, _, _, _, _, ffid, _, _, _, _, _, _, _, _, _, _⟩
      have hgl4 : s4.keyframes.getLast? = some nf3 := by
        rw [akf]
        exact List.getLast?_concat _
      rcases is_maintenance_time_spec hmt with ⟨hbne, f, hglf, hiff⟩
      rw [hgl4] at hglf
      injection hglf with hf
      subst hf
      have hfid : nf3.fid = s.nextFrameId := by rw [ffid, tfid]
      rw [hfid] at hiff
      rcases hrest2 with ⟨hmtf, hout⟩ | ⟨hmtt, s5, nf4, hmm, hgl5, hout⟩
      · subst hout
        show false = true ↔ (true = true ∧ s.nextFrameId % cfg.ba_interval = 0)
        refine ⟨fun hc => Bool.noConfusion hc, ?_⟩
        rintro ⟨_, hcond⟩
        have h2 := hiff.mpr hcond
        rw [hmtf] at h2
        cases h2
      · subst hout
        subst hmtt
        show true = true ↔ (true = true ∧ s.nextFrameId % cfg.ba_interval = 0)
        exact ⟨fun _ => ⟨rfl, hiff.mp rfl⟩, fun _ => rfl⟩

/-- Witness for C5 (amended): the third call of run C accepts a keyframe
whose frame id 3 is divisible by the interval 3, and maintenance runs. -/
theorem C5_witness :
    outC3.ranMaint = true ↔
      (outC3.acceptedKf = true ∧ outC2.st.nextFrameId % cfgC.ba_interval = 0) :=
  C5_maintenance_trigger cfgC outC2.st inpC3 outC3 (by with_unfolding_all rfl)

/-- C6: during a completed maintenance pass (with the 3-D pose-estimation
path enabled, so that 3-D pruning runs), a `map3d` point is discarded
exactly when its total-use count has reached the removal usage limit AND
(its inlier ratio is at or below the removal ratio, OR its last inlier
use does not postdate the keyframe `removal_age` from the end of the
retained list) — the condition `removalCond`, evaluated against the
keyframe list left by the preceding keyframe pruning: a qualifying point
is deleted from `map3d` and from every retained keyframe's 2-D map,
while an id none of whose `map3d` entries qualify is retained in
`map3d`. -/
theorem C6_prune_map3d_removal (cfg : Config) (s : VOState) (inp : Inp) (s' : VOState)
    (h : maintain_map cfg s inp = some s') (h3d : pose3dEnabled cfg = true) :
    ∀ kid kp, (kid, kp) ∈ s.map3d →
      (removalCond cfg
          (if cfg.max_keyframes < s.keyframes.length then
            pyLastN cfg.max_keyframes s.keyframes
           else s.keyframes) kp →
        kid ∉ mapIds s'.map3d ∧ ∀ f ∈ s'.keyframes, kid ∉ f.kps) ∧
      ((∀ kp', (kid, kp') ∈ s.map3d →
          ¬ removalCond cfg
              (if cfg.max_keyframes < s.keyframes.length then
                pyLastN cfg.max_keyframes s.keyframes
               else s.keyframes) kp') →
        kid ∈ mapIds s'.map3d) := by
  intro kid kp hmem
  unfold maintain_map at h
  simp only [] at h
  generalize hT : (if cfg.max_keyframes < s.keyframes.length then prune_keyframes cfg s
    else s) = s1 at h
  have h13 : s1.map3d = s.map3d := by
    rw [← hT]
    split <;> rfl
  have h1k : s1.keyframes =
      (if cfg.max_keyframes < s.keyframes.length then
        pyLastN cfg.max_keyframes s.keyframes
       else s.keyframes) := by
    rw [← hT]
    by_cases hc : cfg.max_keyframes < s.keyframes.length
    · rw [if_pos hc, if_pos hc]
      rfl
    · rw [if_neg hc, if_neg hc]
  split at h
  · cases h
  · rename_i s2 heq2
    split at heq2
    · rcases prune_map3d_spec heq2 with ⟨rem, hs2, hremiff⟩
      subst hs2
      constructor
      · -- a qualifying point is discarded everywhere
        intro hcond
        rw [← h1k] at hcond
        by_cases hT0 : kp.total_count = 0
        · have hnone : removalPred cfg s1.keyframes kp = none := by
            unfold removalPred
            rw [if_pos hcond.1, if_pos hT0]
          have hcrash := prune_map3d_none
            (show (kid, kp) ∈ s1.map3d by rw [h13]; exact hmem) hnone
          rw [hcrash] at heq2
          cases heq2
        · have hps := prune_map3d_isSome heq2 (kid, kp) (by rw [h13]; exact hmem)
          cases hb : removalPred cfg s1.keyframes kp with
          | none =>
            rw [hb] at hps
            cases hps
          | some b =>
            have hbt : b = true := (removalPred_true_iff hb).mpr hcond
            subst hbt
            have hkidrem : kid ∈ rem :=
              (hremiff kid).mpr ⟨(kid, kp), by rw [h13]; exact hmem, rfl, hb⟩
            have hgone3 : kid ∉
                mapIds (List.foldl (fun st kid => del_keypoint kid st) s1 rem).map3d := by
              rw [foldDel_mem_map3d]
              rintro ⟨_, hc⟩
              exact hc hkidrem
            have hgonek : ∀ f ∈
                (List.foldl (fun st kid => del_keypoint kid st) s1 rem).keyframes,
                kid ∉ f.kps := foldDel_kps_gone rem kid s1 hkidrem
            split at h
            · rcases bundle_adjustment_spec h with ⟨b3, _, _, _, _, _, _, _, _, bkps, _⟩
              constructor
              · rw [b3]
                exact hgone3
              · intro f hf
                rcases map_eq_imp_mem Frame.kps bkps f hf with ⟨f2, hf2, hke⟩
                rw [show f.kps = f2.kps from hke]
                exact hgonek f2 hf2
            · cases h
              exact ⟨hgone3, hgonek⟩
      · -- an id with no qualifying entry is retained
        intro hall
        have hall' : ∀ kp', (kid, kp') ∈ s.map3d → ¬ removalCond cfg s1.keyframes kp' := by
          rw [h1k]
          exact hall
        have hnotrem : kid ∉ rem := by
          intro hc
          rcases (hremiff kid).mp hc with ⟨p, hpmem, hp1, hppred⟩
          have hpc : removalCond cfg s1.keyframes p.2 := (removalPred_true_iff hppred).mp rfl
          have hmem' : (kid, p.2) ∈ s.map3d := by
            rw [← h13, ← hp1]
            exact hpmem
          exact hall' p.2 hmem' hpc
        have hin2 : kid ∈
            mapIds (List.foldl (fun st kid => del_keypoint kid st) s1 rem).map3d := by
          rw [foldDel_mem_map3d]
          exact ⟨by rw [h13]; exact List.mem_map_of_mem Prod.fst hmem, hnotrem⟩
        split at h
        · rcases bundle_adjustment_spec h with ⟨b3, _, _, _, _, _, _, _, _, _, _⟩
          rw [b3]
          exact hin2
        · cases h
          exact hin2
    · rename_i hc
      exact absurd h3d hc

/-- Witness for C6: maintenance on the hand-built state `sW6`.  Point 7
(used 5 times — the usage limit — with inlier ratio 1/5, the removal
ratio) qualifies and disappears from `map3d` and from the retained
keyframe; point 8 (same usage but all-inlier, ratio 1, with too few
keyframes for the age cutoff) qualifies under no entry and is
retained. -/
theorem C6_witness :
    (7 ∉ mapIds sW6out.map3d ∧ ∀ f ∈ sW6out.keyframes, 7 ∉ f.kps) ∧
    8 ∈ mapIds sW6out.map3d := by
  have hc6 := C6_prune_map3d_removal cfgA sW6 inp0 sW6out (by with_unfolding_all rfl) rfl
  refine ⟨(hc6 7 kpW (List.mem_cons_self _ _)).1 ?_, (hc6 8 kpW8 ?_).2 ?_⟩
  · exact ⟨by decide, Or.inl (by with_unfolding_all decide)⟩
  · exact List.mem_cons_of_mem _ (List.mem_singleton.mpr rfl)
  · intro kp' hm hcond
    rcases List.mem_cons.mp hm with he | hm2
    · have h87 : (8 : ℕ) = 7 := congrArg Prod.fst he
      exact absurd h87 (by decide)
    · rcases List.mem_cons.mp hm2 with he2 | hm3
      · have hkp : kp' = kpW8 := congrArg Prod.snd he2
        subst hkp
        rcases hcond with ⟨_, hd⟩
        rcases hd with hr | ⟨ha, _⟩
        · exact absurd hr (by with_unfolding_all decide)
        · exact absurd ha (by with_unfolding_all decide)
      · cases hm3

/-- C7 counterexample: in run C the keyframe cap is configured to 0, and
the third call runs maintenance with 3 retained keyframes: the pruning
slice `keyframes[-0:]` keeps the whole list, so after the maintenance
pass the keyframe count (3) exceeds the configured cap (0). -/
theorem C7_counterexample :
    Reach cfgC outC2.st ∧
    process cfgC outC2.st inpC3 = some outC3 ∧
    outC3.ranMaint = true ∧
    cfgC.max_keyframes < outC3.st.keyframes.length :=
  ⟨reachC2, by with_unfolding_all rfl, by with_unfolding_all rfl,
   by with_unfolding_all decide⟩

/-- C7 (amended): a maintenance pass keeps the keyframe count within the
cap and drops exactly the oldest excess keyframes (keeping the newest in
order) only when the cap is positive: the retained frame-id list is the
`pyLastN`-suffix of the previous one when the cap was exceeded, and with
a cap of 0 the Python slice `keyframes[-0:]` keeps every keyframe, so no
pruning happens at all. -/
theorem C7_keyframe_cap (cfg : Config) (s : VOState) (inp : Inp) (s' : VOState)
    (h : maintain_map cfg s inp = some s') :
    (0 < cfg.max_keyframes → s'.keyframes.length ≤ cfg.max_keyframes) ∧
    s'.keyframes.map Frame.fid =
      (if cfg.max_keyframes < s.keyframes.length then
        pyLastN cfg.max_keyframes (s.keyframes.map Frame.fid)
       else s.keyframes.map Frame.fid) ∧
    (cfg.max_keyframes = 0 → s'.keyframes.map Frame.fid = s.keyframes.map Frame.fid) := by
  have m9 := (maintain_spec h).2.2.2.2.2.2.2.2
  have hlen := congrArg List.length m9
  rw [List.length_map] at hlen
  refine ⟨?_, m9, ?_⟩
  · intro hpos
    rw [hlen]
    split
    · rw [pyLastN_length, if_neg (by omega), List.length_map]
      omega
    · rw [List.length_map]
      omega
  · intro h0
    rw [m9, h0]
    split
    · show pyLastN 0 _ = _
      unfold pyLastN
      rw [if_pos rfl]
    · rfl

/-- Witness for C7 (amended): maintenance on the two-keyframe state `sW7`
with a cap of 1 retains only the newest keyframe. -/
theorem C7_witness :
    (0 < cfgW7.max_keyframes → sW7out.keyframes.length ≤ cfgW7.max_keyframes) ∧
    sW7out.keyframes.map Frame.fid =
      (if cfgW7.max_keyframes < sW7.keyframes.length then
        pyLastN cfgW7.max_keyframes (sW7.keyframes.map Frame.fid)
       else sW7.keyframes.map Frame.fid) ∧
    (cfgW7.max_keyframes = 0 → sW7out.keyframes.map Frame.fid = sW7.keyframes.map Frame.fid) :=
  C7_keyframe_cap cfgW7 sW7 inp0 sW7out (by with_unfolding_all rfl)

/-- C8: triangulating a candidate id removes it from `map2d` and moves
its keypoint, carrying the computed 3-D position, into `map3d`; and for
any completed `process` call from a state satisfying the engine
invariant, every id triangulated during the call is absent from `map2d`
afterwards and is never part of a triangulation-candidate selection in
any later call, because candidate selection only considers ids currently
present in `map2d` and a fresh id can never collide with it again. -/
theorem C8_triangulated_never_reselected (cfg : Config) (s : VOState) (inp : Inp) (out : POut)
    (hInv : Inv s) (h : process cfg s inp = some out) :
    (∀ (st st' : VOState) (c : List ℕ) (tri : ℕ → Vec3), triangulate st c tri = some st' →
      ∀ k ∈ c, (k ∉ mapIds st'.map2d ∧ k ∈ mapIds st'.map3d) ∧
        ∃ kp, (k, kp) ∈ st'.map3d ∧ kp.pt3d = some (tri k)) ∧
    ∀ kid ∈ out.triangulated, kid ∉ mapIds out.st.map2d ∧
      ∀ t, Steps cfg out.st t → ∀ inp2 out2, process cfg t inp2 = some out2 →
        kid ∉ out2.selected := by
  refine ⟨?_, ?_⟩
  · intro st st' c tri htr k hk
    exact ⟨triangulate_moves c tri st st' htr k hk, triangulate_pt3d c tri st st' htr k hk⟩
  · intro kid hkid
    have hsg : StableGone kid out.st := by
      rcases hInv with ⟨⟨hb2, hb3⟩, hd, hkI⟩
      by_cases hs : s.initialized = false
      · rcases process_uninit hs h with ⟨s1, tk, heq, hout⟩
        subst hout
        rcases initTracking_spec heq with ⟨_, _, _, _, _, hm3, _, _, _, _, htkm⟩
        rcases htkm kid hkid with ⟨hn2, hi3⟩
        exact ⟨(hm3 kid hi3).2, hn2⟩
      · rw [Bool.not_eq_false] at hs
        rcases process_tracking hs h with ⟨s2, nf2, hts, s3, hrec, knf, cache, hknf, hrest⟩
        rcases trackingStage_spec hts with ⟨tinit, tnkp, tnfr, tm2, tm3, tdisj, tent, tlen,
          tgl, tfid, ttime, tprior, tkps, tlposn, tlposs⟩
        have h3eq : s3.map2d = s2.map2d ∧ s3.map3d = s2.map3d ∧ s3.nextKpId = s2.nextKpId := by
          rcases hrec with ⟨t0, _, _, hs3⟩ | ⟨_, hs3⟩
          · subst hs3
            exact ⟨by split <;> split <;> rfl, by split <;> split <;> rfl,
              by split <;> split <;> rfl⟩
          · subst hs3
            exact ⟨rfl, rfl, rfl⟩
        rcases h3eq with ⟨e2, e3, ekp⟩
        have hb2' : ∀ k ∈ mapIds s3.map2d, k < s3.nextKpId := by
          intro k hk2
          rw [e2] at hk2
          rw [ekp, tnkp]
          exact hb2 k (tm2 k hk2)
        have hb3' : ∀ k ∈ mapIds s3.map3d, k < s3.nextKpId := by
          intro k hk3
          rw [e3] at hk3
          rw [ekp, tnkp]
          exact hb3 k (tm3 k hk3)
        rcases hrest with ⟨hkf, hout⟩ | ⟨hkt, s4, nf3, tk, hadd, mt, hmt, hrest2⟩
        · subst hout
          exact absurd hkid (List.not_mem_nil kid)
        · rcases add_facts hadd with
            ⟨_, _, _, _, _, ankp, _, _, _, _, _, _, am2, am3, atks, atkm, _⟩
          have hcore : kid ∈ tk → kid ∉ mapIds s4.map2d ∧ kid < s4.nextKpId := by
            intro htk
            rcases atkm kid htk with ⟨hn4, hi4⟩
            refine ⟨hn4, ?_⟩
            rw [ankp]
            rcases am3 kid hi4 with h1 | h1 | h1
            · have := hb3' kid h1
              omega
            · have := hb2' kid h1
              omega
            · omega
          rcases hrest2 with ⟨hmtf, hout⟩ | ⟨hmtt, s5, nf4, hmm, hgl5, hout⟩
          · subst hout
            rcases hcore hkid with ⟨hn4, hlt4⟩
            exact ⟨hlt4, hn4⟩
          · subst hout
            rcases hcore hkid with ⟨hn4, hlt4⟩
            rcases maintain_spec hmm with ⟨_, m2, _, m4, _, _, _, _, _⟩
            refine ⟨by show kid < s5.nextKpId; rw [m2]; exact hlt4, ?_⟩
            intro hc
            exact hn4 (m4 kid hc)
    exact ⟨hsg.2, fun t hst inp2 out2 h2 => (stableGone_step (stableGone_steps hsg hst) h2).2⟩

/-- Witness for C8: id 3 is triangulated by the run-A call `inpA2b`; it
is gone from `map2d` afterwards, and the follow-up call `inpE` — whose
displacement oracle would select every eligible id — does not select it
(its selections are the still-two-dimensional ids 4 and 5). -/
theorem C8_witness : 3 ∉ mapIds outA2b.st.map2d ∧ 3 ∉ outE.selected :=
  ⟨((C8_triangulated_never_reselected cfgA outA1.st inpA2b outA2b (reach_inv reachA1)
      (by with_unfolding_all rfl)).2 3 (by with_unfolding_all decide)).1,
   ((C8_triangulated_never_reselected cfgA outA1.st inpA2b outA2b (reach_inv reachA1)
      (by with_unfolding_all rfl)).2 3 (by with_unfolding_all decide)).2 outA2b.st
     (Steps.refl outA2b.st) inpE outE (by with_unfolding_all rfl)⟩

/-- C10 counterexample: in the reachable run-A state every 2-D point has
been triangulated, so `map2d` is empty; the next call produces a
posterior pose and reaches the triangulation-trigger ratio
`len(triangulation_kps)/len(map2d)` with a zero denominator, and
`process` raises (returns `none`): the claimed non-zero-denominator
guarantee fails for the trigger fraction. -/
theorem C10_counterexample :
    Reach cfgA outA2.st ∧
    process cfgA outA2.st inpA3 = none ∧
    trackingStage cfgA outA2.st inpA3 = some (prA3.1, prA3.2) ∧
    prA3.2.post.isSome = true ∧
    prA3.1.map2d.length = 0 ∧
    is_new_keyframe cfgA prA3.1 prA3.2 inpA3 = none :=
  ⟨reachA2, by with_unfolding_all rfl, by with_unfolding_all rfl,
   by with_unfolding_all rfl, by with_unfolding_all rfl, by with_unfolding_all rfl⟩

/-- C10 (amended): the survival-ratio denominator is indeed safe — in any
reachable TRACKING state, whenever tracking and pose estimation produce a
posterior pose (the only case in which `is_new_keyframe` computes the
survival ratio), the reference keyframe exists and its initial keypoint
count is positive.  The triangulation-trigger denominator `len(map2d)`,
by contrast, can be zero in a reachable state (see the counterexample),
and the viewpoint-change fraction is guarded by the short-circuit
`len(map3d) > 0` conjunct in the source. -/
theorem C10_survival_denominator (cfg : Config) (s : VOState) (inp : Inp)
    (s2 : VOState) (nf2 : Frame)
    (hr : Reach cfg s) (hs : s.initialized = true)
    (hts : trackingStage cfg s inp = some (s2, nf2)) (hpost : nf2.post.isSome = true) :
    ∃ rf, s2.keyframes.getLast? = some rf ∧ 0 < rf.ini_kp_count := by
  rcases reach_inv hr with ⟨_, _, hkI⟩
  rcases trackingStage_spec hts with ⟨_, _, _, _, _, _, _, _, tgl, _, _, _, _, _, tlposs⟩
  rcases tlposs hpost with ⟨_, hklen⟩
  rcases hkI hs with ⟨_, lf, hlf, hcl⟩
  have htre : trackedKps s inp = lf.kps.filter (fun kid => inp.surv kid) := by
    unfold trackedKps
    rw [hlf]
  have hlkne : lf.kps ≠ [] := by
    intro hc
    rw [htre, hc] at hklen
    simp at hklen
  rcases hcl hlkne with ⟨rf0, hrf0, hrf0pos⟩
  rcases tgl rf0 hrf0 with ⟨rf', hrf', hrfe⟩
  exact ⟨rf', hrf', by rw [hrfe]; exact hrf0pos⟩

/-- Witness for C10 (amended): at the successful second call of run A the
reference keyframe is the initial keyframe with 41 detected features. -/
theorem C10_witness :
    ∃ rf, prA2.1.keyframes.getLast? = some rf ∧ 0 < rf.ini_kp_count :=
  C10_survival_denominator cfgA outA1.st inpA2 prA2.1 prA2.2 reachA1
    (by with_unfolding_all rfl) (by with_unfolding_all rfl) (by with_unfolding_all rfl)

end VisNav
